import Mathlib

/-!
WT901C-485 IMU node: checksum engine, frame codec and value decoder.

A shallow embedding of `src/wt901c485_node.cpp`.

* Bytes (`uint8_t`) are natural numbers below 256; the receive buffer
  `serial.recv_data` is a list of them (the whole array, stale bytes included),
  and the result of `serial.readSerial()` is an `Int`.
* C integer operators are translated one to one (`^`, `&`, `|`, `<<`, `>>`
  become `^^^`, `&&&`, `|||`, `<<<`, `>>>`), conversions to a narrower unsigned
  type are an explicit `%`.
* The published floating-point values are modelled over an arbitrary field:
  the rationals for the scalings, the reals for the orientation.
* The calls a function makes on the serial link and on the clock are its
  result, a list of `LinkAction`; the link decides whether a write succeeds.
-/

namespace WT901

/-! ## Checksum engine (`getCrc`) -/

/-- The table `crc_high_array` of `getCrc`, 256 entries. -/
def crc_high_array : List Nat := [
  0x00, 0xC1, 0x81, 0x40, 0x01, 0xC0, 0x80, 0x41, 0x01, 0xC0, 0x80, 0x41, 0x00, 0xC1, 0x81,
  0x40, 0x01, 0xC0, 0x80, 0x41, 0x00, 0xC1, 0x81, 0x40, 0x00, 0xC1, 0x81, 0x40, 0x01, 0xC0,
  0x80, 0x41, 0x01, 0xC0, 0x80, 0x41, 0x00, 0xC1, 0x81, 0x40, 0x00, 0xC1, 0x81, 0x40, 0x01,
  0xC0, 0x80, 0x41, 0x00, 0xC1, 0x81, 0x40, 0x01, 0xC0, 0x80, 0x41, 0x01, 0xC0, 0x80, 0x41,
  0x00, 0xC1, 0x81, 0x40, 0x01, 0xC0, 0x80, 0x41, 0x00, 0xC1, 0x81, 0x40, 0x00, 0xC1, 0x81,
  0x40, 0x01, 0xC0, 0x80, 0x41, 0x00, 0xC1, 0x81, 0x40, 0x01, 0xC0, 0x80, 0x41, 0x01, 0xC0,
  0x80, 0x41, 0x00, 0xC1, 0x81, 0x40, 0x00, 0xC1, 0x81, 0x40, 0x01, 0xC0, 0x80, 0x41, 0x01,
  0xC0, 0x80, 0x41, 0x00, 0xC1, 0x81, 0x40, 0x01, 0xC0, 0x80, 0x41, 0x00, 0xC1, 0x81, 0x40,
  0x00, 0xC1, 0x81, 0x40, 0x01, 0xC0, 0x80, 0x41, 0x01, 0xC0, 0x80, 0x41, 0x00, 0xC1, 0x81,
  0x40, 0x00, 0xC1, 0x81, 0x40, 0x01, 0xC0, 0x80, 0x41, 0x00, 0xC1, 0x81, 0x40, 0x01, 0xC0,
  0x80, 0x41, 0x01, 0xC0, 0x80, 0x41, 0x00, 0xC1, 0x81, 0x40, 0x00, 0xC1, 0x81, 0x40, 0x01,
  0xC0, 0x80, 0x41, 0x01, 0xC0, 0x80, 0x41, 0x00, 0xC1, 0x81, 0x40, 0x01, 0xC0, 0x80, 0x41,
  0x00, 0xC1, 0x81, 0x40, 0x00, 0xC1, 0x81, 0x40, 0x01, 0xC0, 0x80, 0x41, 0x00, 0xC1, 0x81,
  0x40, 0x01, 0xC0, 0x80, 0x41, 0x01, 0xC0, 0x80, 0x41, 0x00, 0xC1, 0x81, 0x40, 0x01, 0xC0,
  0x80, 0x41, 0x00, 0xC1, 0x81, 0x40, 0x00, 0xC1, 0x81, 0x40, 0x01, 0xC0, 0x80, 0x41, 0x01,
  0xC0, 0x80, 0x41, 0x00, 0xC1, 0x81, 0x40, 0x00, 0xC1, 0x81, 0x40, 0x01, 0xC0, 0x80, 0x41,
  0x00, 0xC1, 0x81, 0x40, 0x01, 0xC0, 0x80, 0x41, 0x01, 0xC0, 0x80, 0x41, 0x00, 0xC1, 0x81,
  0x40]

/-- The table `crc_low_array` of `getCrc`, 256 entries. -/
def crc_low_array : List Nat := [
  0x00, 0xC0, 0xC1, 0x01, 0xC3, 0x03, 0x02, 0xC2, 0xC6, 0x06, 0x07, 0xC7, 0x05, 0xC5, 0xC4,
  0x04, 0xCC, 0x0C, 0x0D, 0xCD, 0x0F, 0xCF, 0xCE, 0x0E, 0x0A, 0xCA, 0xCB, 0x0B, 0xC9, 0x09,
  0x08, 0xC8, 0xD8, 0x18, 0x19, 0xD9, 0x1B, 0xDB, 0xDA, 0x1A, 0x1E, 0xDE, 0xDF, 0x1F, 0xDD,
  0x1D, 0x1C, 0xDC, 0x14, 0xD4, 0xD5, 0x15, 0xD7, 0x17, 0x16, 0xD6, 0xD2, 0x12, 0x13, 0xD3,
  0x11, 0xD1, 0xD0, 0x10, 0xF0, 0x30, 0x31, 0xF1, 0x33, 0xF3, 0xF2, 0x32, 0x36, 0xF6, 0xF7,
  0x37, 0xF5, 0x35, 0x34, 0xF4, 0x3C, 0xFC, 0xFD, 0x3D, 0xFF, 0x3F, 0x3E, 0xFE, 0xFA, 0x3A,
  0x3B, 0xFB, 0x39, 0xF9, 0xF8, 0x38, 0x28, 0xE8, 0xE9, 0x29, 0xEB, 0x2B, 0x2A, 0xEA, 0xEE,
  0x2E, 0x2F, 0xEF, 0x2D, 0xED, 0xEC, 0x2C, 0xE4, 0x24, 0x25, 0xE5, 0x27, 0xE7, 0xE6, 0x26,
  0x22, 0xE2, 0xE3, 0x23, 0xE1, 0x21, 0x20, 0xE0, 0xA0, 0x60, 0x61, 0xA1, 0x63, 0xA3, 0xA2,
  0x62, 0x66, 0xA6, 0xA7, 0x67, 0xA5, 0x65, 0x64, 0xA4, 0x6C, 0xAC, 0xAD, 0x6D, 0xAF, 0x6F,
  0x6E, 0xAE, 0xAA, 0x6A, 0x6B, 0xAB, 0x69, 0xA9, 0xA8, 0x68, 0x78, 0xB8, 0xB9, 0x79, 0xBB,
  0x7B, 0x7A, 0xBA, 0xBE, 0x7E, 0x7F, 0xBF, 0x7D, 0xBD, 0xBC, 0x7C, 0xB4, 0x74, 0x75, 0xB5,
  0x77, 0xB7, 0xB6, 0x76, 0x72, 0xB2, 0xB3, 0x73, 0xB1, 0x71, 0x70, 0xB0, 0x50, 0x90, 0x91,
  0x51, 0x93, 0x53, 0x52, 0x92, 0x96, 0x56, 0x57, 0x97, 0x55, 0x95, 0x94, 0x54, 0x9C, 0x5C,
  0x5D, 0x9D, 0x5F, 0x9F, 0x9E, 0x5E, 0x5A, 0x9A, 0x9B, 0x5B, 0x99, 0x59, 0x58, 0x98, 0x88,
  0x48, 0x49, 0x89, 0x4B, 0x8B, 0x8A, 0x4A, 0x4E, 0x8E, 0x8F, 0x4F, 0x8D, 0x4D, 0x4C, 0x8C,
  0x44, 0x84, 0x85, 0x45, 0x87, 0x47, 0x46, 0x86, 0x82, 0x42, 0x43, 0x83, 0x41, 0x81, 0x80,
  0x40]

/-- One pass through the body of the `for` loop of `getCrc`, on the pair
`(crc_high, crc_low)` and the byte `datas_[i]`. -/
def crcStep (st : Nat × Nat) (d : Nat) : Nat × Nat :=
  let crc_tmp := (st.1 ^^^ d) &&& 0xff
  let crc_high := (st.2 ^^^ crc_high_array.getD crc_tmp 0) &&& 0xff
  let crc_low := crc_low_array.getD crc_tmp 0
  (crc_high, crc_low)

/-- The pair `(crc_high, crc_low)` after `i` iterations of the loop of `getCrc`;
both start at `0xff`, and iteration `i` reads `datas_[i]`. -/
def getCrcLoop (datas_ : List Nat) : Nat → Nat × Nat
  | 0 => (0xff, 0xff)
  | i + 1 => crcStep (getCrcLoop datas_ i) (datas_.getD i 0)

/-- The function `getCrc(uint8_t *datas_, uint8_t size_)`. The parameter
`size_` is a `uint8_t`: whatever the caller passes is converted modulo 256. The
result `crc_high << 8 | crc_low` is returned as a `uint16_t`. -/
def getCrc (datas_ : List Nat) (size_ : Nat) : Nat :=
  let st := getCrcLoop datas_ (size_ % 256)
  (st.1 <<< 8 ||| st.2) % 65536

/-! ## Messages and external mathematics -/

/-- The message `geometry_msgs::msg::Vector3`. -/
structure Vector3 (α : Type) where
  x : α
  y : α
  z : α
deriving DecidableEq, Repr

/-- The orientation field of `sensor_msgs::msg::Imu` (a quaternion). -/
structure Orientation (α : Type) where
  x : α
  y : α
  z : α
  w : α
deriving DecidableEq, Repr

/-- The fields of `sensor_msgs::msg::Imu` that `serialCallback` fills in
(header and covariances apart). -/
structure Imu (α : Type) where
  orientation : Orientation α
  angular_velocity : Vector3 α
  linear_acceleration : Vector3 α
deriving DecidableEq, Repr

/-- The field of `sensor_msgs::msg::MagneticField` that `serialCallback` fills in. -/
structure MagneticField (α : Type) where
  magnetic_field : Vector3 α
deriving DecidableEq, Repr

/-- The mathematics `serialCallback` takes from outside the repository: the
constant `M_PI` and the functions `sin` and `cos` used by `tf2`. -/
structure Trig (α : Type) where
  pi : α
  sin : α → α
  cos : α → α

/-- The library function `tf2::Quaternion::setRPY(roll, pitch, yaw)`: the
quaternion of the rotation by roll about X, pitch about Y and yaw about Z. -/
def setRPY {α : Type} [Field α] (T : Trig α) (roll pitch yaw : α) : Orientation α :=
  let halfYaw := yaw * (1 / 2)
  let halfPitch := pitch * (1 / 2)
  let halfRoll := roll * (1 / 2)
  let cosYaw := T.cos halfYaw
  let sinYaw := T.sin halfYaw
  let cosPitch := T.cos halfPitch
  let sinPitch := T.sin halfPitch
  let cosRoll := T.cos halfRoll
  let sinRoll := T.sin halfRoll
  { x := sinRoll * cosPitch * cosYaw - cosRoll * sinPitch * sinYaw
    y := cosRoll * sinPitch * cosYaw + sinRoll * cosPitch * sinYaw
    z := cosRoll * cosPitch * sinYaw - sinRoll * sinPitch * cosYaw
    w := cosRoll * cosPitch * cosYaw + sinRoll * sinPitch * sinYaw }

/-! ## Sensor value decoder -/

/-- The constant `acc_range = 16.0f`. -/
def acc_range {α : Type} [Field α] : α := 16

/-- The constant `gyr_range = 2000.0f`. -/
def gyr_range {α : Type} [Field α] : α := 2000

/-- The constant `mag_range = 1.0f`. -/
def mag_range {α : Type} [Field α] : α := 1

/-- The constant `ang_range = 180.0f`. -/
def ang_range {α : Type} [Field α] : α := 180

/-- The literal `9.8f`: the single-precision number nearest to 9.8, which is
`10276045 / 2^20 = 9.80000019073486328125`. -/
def gravity {α : Type} [Field α] : α := 10276045 / 1048576

/-- The conversion `static_cast<int16_t>(x)` of an `int` to a signed 16-bit value. -/
def toInt16 (x : Nat) : Int :=
  if x % 65536 < 32768 then (x % 65536 : Nat) else ((x % 65536 : Nat) : Int) - 65536

/-- The expression `static_cast<int16_t>((recv_data[i] << 8) | recv_data[j])`. -/
def rawReg (recv_data : List Nat) (i j : Nat) : Int :=
  toInt16 ((recv_data.getD i 0 <<< 8) ||| recv_data.getD j 0)

/-- The twelve raw register values read by `serialCallback`, under the names
the specification gives them. -/
structure RegisterBlock where
  accelX : Int
  accelY : Int
  accelZ : Int
  gyroX : Int
  gyroY : Int
  gyroZ : Int
  magX : Int
  magY : Int
  magZ : Int
  roll : Int
  pitch : Int
  yaw : Int
deriving DecidableEq, Repr

/-- The twelve `static_cast<int16_t>` expressions of `serialCallback`, lines 84 to 95. -/
def registerBlock (recv_data : List Nat) : RegisterBlock :=
  { accelX := rawReg recv_data 3 4
    accelY := rawReg recv_data 5 6
    accelZ := rawReg recv_data 7 8
    gyroX := rawReg recv_data 9 10
    gyroY := rawReg recv_data 11 12
    gyroZ := rawReg recv_data 13 14
    magX := rawReg recv_data 15 16
    magY := rawReg recv_data 17 18
    magZ := rawReg recv_data 19 20
    roll := rawReg recv_data 21 22
    pitch := rawReg recv_data 23 24
    yaw := rawReg recv_data 25 26 }

/-- The vector `rpy` of `serialCallback`, lines 93 to 95: each angle is
`raw / 32768.0f * ang_range * M_PI / 180.0f`. -/
def rpyOf {α : Type} [Field α] (T : Trig α) (r : RegisterBlock) : Vector3 α :=
  { x := (r.roll : α) / 32768 * ang_range * T.pi / 180
    y := (r.pitch : α) / 32768 * ang_range * T.pi / 180
    z := (r.yaw : α) / 32768 * ang_range * T.pi / 180 }

/-- The message `imu_data` of `serialCallback`, lines 84 to 89 and 97 to 102. -/
def imuOf {α : Type} [Field α] (T : Trig α) (r : RegisterBlock) : Imu α :=
  { linear_acceleration :=
      { x := (r.accelX : α) / 32768 * acc_range * gravity
        y := (r.accelY : α) / 32768 * acc_range * gravity
        z := (r.accelZ : α) / 32768 * acc_range * gravity }
    angular_velocity :=
      { x := (r.gyroX : α) / 32768 * gyr_range
        y := (r.gyroY : α) / 32768 * gyr_range
        z := (r.gyroZ : α) / 32768 * gyr_range }
    orientation := setRPY T (rpyOf T r).x (rpyOf T r).y (rpyOf T r).z }

/-- The message `mag_data` of `serialCallback`, lines 90 to 92. -/
def magOf {α : Type} [Field α] (r : RegisterBlock) : MagneticField α :=
  { magnetic_field :=
      { x := (r.magX : α) / 32768 * mag_range
        y := (r.magY : α) / 32768 * mag_range
        z := (r.magZ : α) / 32768 * mag_range } }

/-! ## Frame codec -/

/-- What one run of `serialCallback` does. -/
inductive Outcome (α : Type) where
  /-- Both messages are published (lines 104 and 105). -/
  | published (imu_data : Imu α) (mag_data : MagneticField α)
  /-- The warning "receive crc incorrect" and an early return (lines 77 and 78). -/
  | crcIncorrect
  /-- The condition of line 74 is false: nothing is done. -/
  | ignored
deriving DecidableEq, Repr

/-- The conversion of an `int` argument to the `uint8_t` parameter `size_`. -/
def toUInt8 (x : Int) : Nat := (x % 256).toNat

/-- The function `serialCallback`: `recv_data` is the buffer `serial.recv_data`
after `serial.readSerial()` and `res` is what that call returned. -/
def serialCallback {α : Type} [Field α] (T : Trig α) (recv_data : List Nat) (res : Int) :
    Outcome α :=
  if recv_data.getD 0 0 = 0x50 ∧ res = (recv_data.getD 2 0 : Int) + 5 ∧
      recv_data.getD 1 0 = 0x03 then
    let crc_code := getCrc recv_data (toUInt8 (res - 2))
    if crc_code ≠ ((recv_data.getD (res - 2).toNat 0 <<< 8) |||
        recv_data.getD (res - 1).toNat 0) then
      Outcome.crcIncorrect
    else
      Outcome.published (imuOf T (registerBlock recv_data)) (magOf (registerBlock recv_data))
  else
    Outcome.ignored

/-- The function `timerCallback`: the bytes of `send_data` handed to
`serial.writeSerial(send_data, 8)`. -/
def timerCallback : List Nat :=
  let send_data : List Nat := [0x50, 0x03, 0x00, 0x34, 0x00, 0x0C, 0, 0]
  let crc_code := getCrc send_data 6
  let send_data := send_data.set 6 ((crc_code >>> 8) % 256)
  let send_data := send_data.set 7 ((crc_code &&& 0xff) % 256)
  send_data.take 8

/-! ## Spec-side definitions -/

/-- One bit of the bit-shift loop of the reflected CRC-16: the register is
shifted right by one bit and `0xA001` is XORed in when the bit shifted out is 1. -/
def crc16Bit (reg : Nat) : Nat :=
  if reg % 2 = 1 then (reg >>> 1) ^^^ 0xA001 else reg >>> 1

/-- One byte of the bit-shift loop: the byte is XORed into the low 8 bits of
the register, which is then shifted eight times. -/
def crc16Byte (reg b : Nat) : Nat :=
  crc16Bit^[8] (reg ^^^ b)

/-- The standard reflected CRC-16 (polynomial `0xA001`, seed `0xFFFF`, no final
XOR) of a byte sequence, by the bit-shift loop. -/
def crc16 (bytes : List Nat) : Nat :=
  bytes.foldl crc16Byte 0xFFFF

/-- The two's-complement reading of a 16-bit word: a value of 32768 or more
denotes that value minus 65536. -/
def signed16 (w : Nat) : Int :=
  if 32768 ≤ w then (w : Int) - 65536 else (w : Int)

/-- The buffer with bit `j` of the byte at index `i` flipped and nothing else changed. -/
def flipBit (buf : List Nat) (i j : Nat) : List Nat :=
  buf.set i (buf.getD i 0 ^^^ (1 <<< j))

/-- The CRC register held by the pair `(crc_high, crc_low)`: the byte the code
calls `crc_high` is its low byte. -/
def regOf (st : Nat × Nat) : Nat := st.2 * 256 + st.1

/-! ## Outcomes and example frames -/

/-- Whether the outcome is the publication of a reading. -/
def Outcome.isPublished {α : Type} : Outcome α → Bool
  | Outcome.published _ _ => true
  | Outcome.crcIncorrect => false
  | Outcome.ignored => false

/-- A 258-byte response: header `0x50 0x03`, declared data length 253, a payload
of zeros and the trailer `0xFF 0xFF`. -/
def frame258 : List Nat := [0x50, 0x03, 0xFD] ++ List.replicate 253 0 ++ [0xFF, 0xFF]

/-- A telemetry response with payload bytes 1, 2, ..., 24 and its checksum. -/
def frameCount : List Nat :=
  [0x50, 0x03, 0x18, 1, 2, 3, 4, 5, 6, 7, 8, 9, 10, 11, 12, 13, 14, 15, 16, 17, 18, 19, 20,
    21, 22, 23, 24, 0x4B, 0x3F]

/-- The telemetry response whose 24 payload bytes are zero, with its checksum. -/
def frameZero : List Nat := [0x50, 0x03, 0x18] ++ List.replicate 24 0 ++ [0x92, 0xE6]

/-- A 5-byte response with declared data length 0 and a correct checksum,
received into a buffer that still holds the rest of `frameCount`. -/
def frameShort : List Nat := [0x50, 0x03, 0x00, 0x71, 0x21] ++ frameCount.drop 5

/-- A telemetry response whose first register (acceleration X) is 16384 and
whose other registers are zero, with its checksum. -/
def frameHalfScale : List Nat :=
  [0x50, 0x03, 0x18, 0x40, 0x00] ++ List.replicate 22 0 ++ [0xA0, 0x31]

/-- A telemetry response whose gyro X register is -32768 (bytes `0x80 0x00`) and
whose other registers are zero, with its checksum. -/
def frameMinGyro : List Nat :=
  [0x50, 0x03, 0x18, 0, 0, 0, 0, 0, 0, 0x80, 0x00] ++ List.replicate 16 0 ++ [0xBB, 0x0E]

/-! ## Calibration sequencer -/

/-- What the node does on the serial link and on the clock, one entry per call. -/
inductive LinkAction where
  /-- A call `serial.writeSerial(data, size)` with these `size` bytes. -/
  | write (bytes : List Nat)
  /-- A call `serial.readSerial()`. -/
  | read
  /-- A call `rclcpp::sleep_for(std::chrono::milliseconds(ms))`. -/
  | sleep (ms : Nat)
deriving DecidableEq, Repr

/-- The serial link of the library `serial_connect`, as far as the node sees
it: `writeOk k bytes` tells whether the `k`-th call of `writeSerial` (counted
from 0), made with these bytes, succeeds. -/
structure Link where
  writeOk : Nat → List Nat → Bool

/-- The function `accelCalibration`: the calls it makes, in order. Both calls of
`serial.writeSerial` are expression statements, their value is discarded, and
the function returns `void`. -/
def accelCalibration (link : Link) : List LinkAction :=
  let write_data : List Nat := [0xff, 0xaa, 0x69, 0x88, 0x5b]
  let _unlocked := link.writeOk 0 (write_data.take 5)
  let act1 := [LinkAction.write (write_data.take 5), LinkAction.sleep 100]
  let write_data := write_data.set 2 0x01
  let write_data := write_data.set 3 0x01
  let write_data := write_data.set 4 0x00
  let _started := link.writeOk 1 (write_data.take 5)
  act1 ++ [LinkAction.write (write_data.take 5), LinkAction.sleep 5500]

/-! ## The loop of `getCrc` with its 8-bit counter and checked table accesses -/

/-- The body of the loop of `getCrc` where an access to a table outside its
bounds has no value. -/
def crcStepChecked (st : Nat × Nat) (d : Nat) : Option (Nat × Nat) :=
  let crc_tmp := (st.1 ^^^ d) &&& 0xff
  match crc_high_array.get? crc_tmp, crc_low_array.get? crc_tmp with
  | some hi, some lo => some ((st.2 ^^^ hi) &&& 0xff, lo)
  | _, _ => none

/-- The loop `for(uint8_t i=0; i<size_; i++)` of `getCrc`, from the counter
value `i` and the pair `st`, with `fuel` bounding the number of tests of the
condition. The counter is a `uint8_t`: `i++` is taken modulo 256. The result is
the pair at exit together with the number of iterations done from here on;
there is none when the fuel runs out or a table access is out of bounds. -/
def getCrcFor (datas_ : List Nat) (size_ : Nat) :
    Nat → Nat → Nat × Nat → Option ((Nat × Nat) × Nat)
  | 0, _, _ => none
  | fuel + 1, i, st =>
    if i < size_ then
      match crcStepChecked st (datas_.getD i 0) with
      | some st1 =>
        match getCrcFor datas_ size_ fuel ((i + 1) % 256) st1 with
        | some (st2, iterations) => some (st2, iterations + 1)
        | none => none
      | none => none
    else some (st, 0)

/-- A link on which every write succeeds. -/
def linkUp : Link := { writeOk := fun _ _ => true }

/-- A link on which every write fails. -/
def linkDown : Link := { writeOk := fun _ _ => false }

/-! ## Facts about the two tables -/

set_option maxRecDepth 100000 in
theorem crc_high_array_lt : ∀ i < 256, crc_high_array.getD i 0 < 256 := by decide

set_option maxRecDepth 100000 in
theorem crc_low_array_lt : ∀ i < 256, crc_low_array.getD i 0 < 256 := by decide

set_option maxRecDepth 100000 in
theorem crc_low_array_nodup : crc_low_array.Nodup := by decide

set_option maxRecDepth 100000 in
theorem crc_low_array_length : crc_low_array.length = 256 := by decide

theorem crc_low_array_inj {i j : Nat} (hi : i < 256) (hj : j < 256)
    (h : crc_low_array.getD i 0 = crc_low_array.getD j 0) : i = j := by
  have hi' : i < crc_low_array.length := by rw [crc_low_array_length]; exact hi
  have hj' : j < crc_low_array.length := by rw [crc_low_array_length]; exact hj
  rw [List.getD_eq_getElem _ _ hi', List.getD_eq_getElem _ _ hj'] at h
  exact (List.Nodup.getElem_inj_iff crc_low_array_nodup).1 h

set_option maxRecDepth 100000 in
/-- Eight bit-steps of a byte value are the table entries at that index. -/
theorem crc16Bit_iter_table :
    ∀ i < 256, crc16Bit^[8] i = crc_low_array.getD i 0 * 256 + crc_high_array.getD i 0 := by
  decide

/-! ## Bit arithmetic -/

theorem and_ff (x : Nat) : x &&& 0xff = x % 256 :=
  Nat.and_pow_two_sub_one_eq_mod x 8

theorem xor_lt_256 {a b : Nat} (ha : a < 256) (hb : b < 256) : a ^^^ b < 256 :=
  Nat.xor_lt_two_pow (n := 8) ha hb

theorem shl8_or (a : Nat) {b : Nat} (hb : b < 256) : a <<< 8 ||| b = a * 256 + b := by
  apply Nat.eq_of_testBit_eq
  intro i
  have h := Nat.testBit_mul_pow_two_add a (i := 8) hb i
  rw [show a * 256 + b = 2 ^ 8 * a + b by omega, h, Nat.testBit_or, Nat.testBit_shiftLeft]
  by_cases hi : i < 8
  · simp [hi, Nat.not_le.2 hi]
  · have hb' : b.testBit i = false :=
      Nat.testBit_lt_two_pow (lt_of_lt_of_le hb
        (Nat.pow_le_pow_right (show 0 < 2 by norm_num) (Nat.not_lt.1 hi) : 2 ^ 8 ≤ 2 ^ i))
    simp [hi, hb', Nat.not_lt.1 hi]

theorem shl8_xor (a : Nat) {b : Nat} (hb : b < 256) : a <<< 8 ^^^ b = a * 256 + b := by
  apply Nat.eq_of_testBit_eq
  intro i
  have h := Nat.testBit_mul_pow_two_add a (i := 8) hb i
  rw [show a * 256 + b = 2 ^ 8 * a + b by omega, h, Nat.testBit_xor, Nat.testBit_shiftLeft]
  by_cases hi : i < 8
  · simp [hi, Nat.not_le.2 hi]
  · have hb' : b.testBit i = false :=
      Nat.testBit_lt_two_pow (lt_of_lt_of_le hb
        (Nat.pow_le_pow_right (show 0 < 2 by norm_num) (Nat.not_lt.1 hi) : 2 ^ 8 ≤ 2 ^ i))
    simp [hi, hb', Nat.not_lt.1 hi]

/-- Packing two bytes into a word loses nothing. -/
theorem pack_inj {a b c d : Nat} (hb : b < 256) (hd : d < 256)
    (h : a <<< 8 ||| b = c <<< 8 ||| d) : a = c ∧ b = d := by
  rw [shl8_or a hb, shl8_or c hd] at h
  omega

/-- A 16-bit word is its high byte followed by its low byte. -/
theorem split_word (c : Nat) : (c >>> 8) <<< 8 ||| (c &&& 0xff) = c := by
  rw [and_ff, shl8_or _ (Nat.mod_lt _ (by decide)), Nat.shiftRight_eq_div_pow]
  omega

theorem flip_ne (b j : Nat) : b ^^^ (1 <<< j) ≠ b := by
  intro h
  have h2 : b ^^^ (1 <<< j) = b ^^^ 0 := by rw [Nat.xor_zero]; exact h
  have h3 := Nat.xor_right_inj.1 h2
  rw [Nat.shiftLeft_eq, one_mul] at h3
  exact absurd h3 (by positivity)

theorem flip_lt {b j : Nat} (hb : b < 256) (hj : j < 8) : b ^^^ (1 <<< j) < 256 := by
  apply xor_lt_256 hb
  rw [Nat.shiftLeft_eq, one_mul]
  exact lt_of_lt_of_le (Nat.pow_lt_pow_right (by decide) hj) (by decide)

/-! ## The loop of `getCrc` -/

theorem crcStep_fst_lt (st : Nat × Nat) (d : Nat) : (crcStep st d).1 < 256 := by
  simp only [crcStep, and_ff]
  exact Nat.mod_lt _ (by decide)

theorem crcStep_snd_lt (st : Nat × Nat) (d : Nat) : (crcStep st d).2 < 256 := by
  simp only [crcStep, and_ff]
  exact crc_low_array_lt _ (Nat.mod_lt _ (by decide))

theorem getCrcLoop_lt (datas_ : List Nat) (k : Nat) :
    (getCrcLoop datas_ k).1 < 256 ∧ (getCrcLoop datas_ k).2 < 256 := by
  cases k with
  | zero => simp [getCrcLoop]
  | succ k => exact ⟨crcStep_fst_lt _ _, crcStep_snd_lt _ _⟩

/-- The loop body is injective: from the new pair and nothing else one recovers
`crc_low` and `crc_high ^ datas_[i]`. -/
theorem crcStep_inj {s t : Nat × Nat} {d e : Nat}
    (hs1 : s.1 < 256) (hs2 : s.2 < 256) (ht1 : t.1 < 256) (ht2 : t.2 < 256)
    (hd : d < 256) (he : e < 256) (h : crcStep s d = crcStep t e) :
    s.1 ^^^ d = t.1 ^^^ e ∧ s.2 = t.2 := by
  have hx : s.1 ^^^ d < 256 := xor_lt_256 hs1 hd
  have hy : t.1 ^^^ e < 256 := xor_lt_256 ht1 he
  simp only [crcStep, and_ff, Prod.mk.injEq, Nat.mod_eq_of_lt hx, Nat.mod_eq_of_lt hy] at h
  have hidx : s.1 ^^^ d = t.1 ^^^ e := crc_low_array_inj hx hy h.2
  refine ⟨hidx, ?_⟩
  have h1 := h.1
  rw [hidx] at h1
  have hh := crc_high_array_lt _ hy
  rw [Nat.mod_eq_of_lt (xor_lt_256 hs2 hh), Nat.mod_eq_of_lt (xor_lt_256 ht2 hh)] at h1
  exact Nat.xor_left_inj.1 h1

/-- The pair after `k` iterations depends on the first `k` bytes only. -/
theorem getCrcLoop_congr {a b : List Nat} (k : Nat)
    (h : ∀ m < k, a.getD m 0 = b.getD m 0) : getCrcLoop a k = getCrcLoop b k := by
  induction k with
  | zero => rfl
  | succ k ih =>
    simp only [getCrcLoop]
    rw [ih (fun m hm => h m (Nat.lt_succ_of_lt hm)), h k (Nat.lt_succ_self k)]

/-- Two buffers that differ in exactly one of the first `k` bytes give different
pairs after `k` iterations. -/
theorem getCrcLoop_ne {a b : List Nat} {i : Nat} (k : Nat) (hik : i < k)
    (ha : ∀ m < k, a.getD m 0 < 256) (hb : ∀ m < k, b.getD m 0 < 256)
    (hne : a.getD i 0 ≠ b.getD i 0)
    (heq : ∀ m < k, m ≠ i → a.getD m 0 = b.getD m 0) :
    getCrcLoop a k ≠ getCrcLoop b k := by
  induction k with
  | zero => exact absurd hik (Nat.not_lt_zero _)
  | succ k ih =>
    intro hcontra
    simp only [getCrcLoop] at hcontra
    have hinj := crcStep_inj (getCrcLoop_lt a k).1 (getCrcLoop_lt a k).2
      (getCrcLoop_lt b k).1 (getCrcLoop_lt b k).2 (ha k (Nat.lt_succ_self k))
      (hb k (Nat.lt_succ_self k)) hcontra
    by_cases hk : i = k
    · subst hk
      have hsame : getCrcLoop a i = getCrcLoop b i :=
        getCrcLoop_congr i (fun m hm => heq m (Nat.lt_succ_of_lt hm) (Nat.ne_of_lt hm))
      rw [hsame] at hinj
      exact hne (Nat.xor_right_inj.1 hinj.1)
    · have hik' : i < k := by omega
      have hbyte : a.getD k 0 = b.getD k 0 := heq k (Nat.lt_succ_self k) (Ne.symm hk)
      refine ih hik' (fun m hm => ha m (Nat.lt_succ_of_lt hm))
        (fun m hm => hb m (Nat.lt_succ_of_lt hm))
        (fun m hm hmi => heq m (Nat.lt_succ_of_lt hm) hmi) ?_
      rw [hbyte] at hinj
      exact Prod.ext (Nat.xor_left_inj.1 hinj.1) hinj.2

/-! ## The table loop against the bit-shift loop -/

theorem shiftRight_one_xor (x y : Nat) : (x ^^^ y) >>> 1 = x >>> 1 ^^^ y >>> 1 := by
  apply Nat.eq_of_testBit_eq
  intro i
  simp only [Nat.testBit_shiftRight, Nat.testBit_xor]

/-- The bit-step is linear over XOR. -/
theorem crc16Bit_xor (x y : Nat) : crc16Bit (x ^^^ y) = crc16Bit x ^^^ crc16Bit y := by
  unfold crc16Bit
  rw [Nat.xor_mod_two_eq, shiftRight_one_xor]
  rcases Nat.mod_two_eq_zero_or_one x with hx | hx <;>
    rcases Nat.mod_two_eq_zero_or_one y with hy | hy
  · have h : (x + y) % 2 = 0 := by omega
    simp [hx, hy, h]
  · have h : (x + y) % 2 = 1 := by omega
    simp [hx, hy, h, Nat.xor_assoc]
  · have h : (x + y) % 2 = 1 := by omega
    simp only [hx, hy, h, if_true, if_false, reduceCtorEq, zero_ne_one]
    rw [Nat.xor_assoc, Nat.xor_assoc, Nat.xor_comm (y >>> 1)]
  · have h : (x + y) % 2 = 0 := by omega
    simp only [hx, hy, h, if_true, if_false, reduceCtorEq, zero_ne_one]
    rw [Nat.xor_assoc, Nat.xor_comm 40961, Nat.xor_assoc, Nat.xor_self, Nat.xor_zero]

theorem crc16Bit_iter_xor (n x y : Nat) :
    crc16Bit^[n] (x ^^^ y) = crc16Bit^[n] x ^^^ crc16Bit^[n] y := by
  induction n generalizing x y with
  | zero => rfl
  | succ n ih => simp only [Function.iterate_succ, Function.comp_apply, crc16Bit_xor, ih]

/-- Bits that are zero are shifted out unchanged. -/
theorem crc16Bit_iter_shl (n l : Nat) : crc16Bit^[n] (l * 2 ^ n) = l := by
  induction n with
  | zero => simp
  | succ n ih =>
    rw [Function.iterate_succ, Function.comp_apply]
    have h : crc16Bit (l * 2 ^ (n + 1)) = l * 2 ^ n := by
      unfold crc16Bit
      have h2 : l * 2 ^ (n + 1) = 2 * (l * 2 ^ n) := by ring
      rw [h2, Nat.shiftRight_eq_div_pow]
      simp
    rw [h, ih]

/-- One pass of the loop body is one byte of the bit-shift loop. -/
theorem crcStep_eq_crc16Byte {st : Nat × Nat} {d : Nat}
    (h1 : st.1 < 256) (h2 : st.2 < 256) (hd : d < 256) :
    regOf (crcStep st d) = crc16Byte (regOf st) d := by
  have hx : st.1 ^^^ d < 256 := xor_lt_256 h1 hd
  have hh := crc_high_array_lt _ hx
  have hl := crc_low_array_lt _ hx
  have hs : (st.2 ^^^ crc_high_array.getD (st.1 ^^^ d) 0) < 256 := xor_lt_256 h2 hh
  simp only [regOf, crcStep, crc16Byte, and_ff, Nat.mod_eq_of_lt hx, Nat.mod_eq_of_lt hs]
  rw [← shl8_xor st.2 h1, Nat.xor_assoc, crc16Bit_iter_xor, crc16Bit_iter_table _ hx,
    Nat.shiftLeft_eq, crc16Bit_iter_shl 8 st.2, ← shl8_xor _ hh, ← shl8_xor _ hs,
    ← Nat.xor_assoc, Nat.xor_comm st.2, Nat.xor_assoc, Nat.xor_assoc, Nat.xor_comm st.2]

/-- After `k` iterations the pair holds the CRC of the first `k` bytes. -/
theorem getCrcLoop_eq_crc16 (datas_ : List Nat) (hb : ∀ b ∈ datas_, b < 256) (k : Nat)
    (hk : k ≤ datas_.length) : regOf (getCrcLoop datas_ k) = crc16 (datas_.take k) := by
  induction k with
  | zero =>
    have h0 : regOf (0xff, 0xff) = 0xFFFF := by norm_num [regOf]
    rw [List.take_zero]
    exact h0
  | succ k ih =>
    have hk' : k < datas_.length := hk
    have hd : datas_.getD k 0 < 256 := by
      rw [List.getD_eq_getElem _ _ hk']
      exact hb _ (List.getElem_mem _)
    have ht : datas_.take (k + 1) = datas_.take k ++ [datas_.getD k 0] := by
      rw [List.take_succ, List.getElem?_eq_getElem hk', List.getD_eq_getElem _ _ hk']
      rfl
    simp only [getCrcLoop]
    rw [crcStep_eq_crc16Byte (getCrcLoop_lt _ _).1 (getCrcLoop_lt _ _).2 hd, ih (Nat.le_of_lt hk'),
      ht]
    unfold crc16
    rw [List.foldl_append]
    rfl

/-- The value returned by `getCrc`, from the pair left by the loop. -/
theorem getCrc_eq (datas_ : List Nat) (n : Nat) (hn : n ≤ 255) :
    getCrc datas_ n = (getCrcLoop datas_ n).1 * 256 + (getCrcLoop datas_ n).2 := by
  have h := getCrcLoop_lt datas_ n
  unfold getCrc
  simp only [Nat.mod_eq_of_lt (Nat.lt_succ_of_le hn)]
  rw [shl8_or _ h.2]
  exact Nat.mod_eq_of_lt (by omega)

/-! ## The frame check of `serialCallback` -/

theorem getD_lt {buf : List Nat} (hb : ∀ b ∈ buf, b < 256) (i : Nat) : buf.getD i 0 < 256 := by
  by_cases hi : i < buf.length
  · rw [List.getD_eq_getElem _ _ hi]
    exact hb _ (List.getElem_mem _)
  · rw [List.getD_eq_default _ _ (Nat.not_lt.1 hi)]
    decide

/-- A reading is published exactly when the condition of line 74 holds and the
comparison of line 76 finds the two values equal. -/
theorem serialCallback_isPublished_iff {α : Type} [Field α] (T : Trig α)
    (recv_data : List Nat) (res : Int) :
    (serialCallback T recv_data res).isPublished = true ↔
      (recv_data.getD 0 0 = 0x50 ∧ res = (recv_data.getD 2 0 : Int) + 5 ∧
        recv_data.getD 1 0 = 0x03) ∧
      getCrc recv_data (toUInt8 (res - 2)) =
        (recv_data.getD (res - 2).toNat 0 <<< 8 ||| recv_data.getD (res - 1).toNat 0) := by
  unfold serialCallback
  by_cases hg : recv_data.getD 0 0 = 0x50 ∧ res = (recv_data.getD 2 0 : Int) + 5 ∧
      recv_data.getD 1 0 = 0x03
  · rw [if_pos hg]
    dsimp only
    by_cases hc : getCrc recv_data (toUInt8 (res - 2)) =
        (recv_data.getD (res - 2).toNat 0 <<< 8 ||| recv_data.getD (res - 1).toNat 0)
    · rw [if_neg (not_not.2 hc)]
      exact ⟨fun _ => ⟨hg, hc⟩, fun _ => rfl⟩
    · rw [if_pos hc]
      exact ⟨fun h => Bool.noConfusion h, fun h => absurd h.2 hc⟩
  · rw [if_neg hg]
    exact ⟨fun h => Bool.noConfusion h, fun h => absurd h.1 hg⟩

theorem serialCallback_eq_published {α : Type} [Field α] (T : Trig α)
    (recv_data : List Nat) (res : Int)
    (hg : recv_data.getD 0 0 = 0x50 ∧ res = (recv_data.getD 2 0 : Int) + 5 ∧
      recv_data.getD 1 0 = 0x03)
    (hc : getCrc recv_data (toUInt8 (res - 2)) =
      (recv_data.getD (res - 2).toNat 0 <<< 8 ||| recv_data.getD (res - 1).toNat 0)) :
    serialCallback T recv_data res =
      Outcome.published (imuOf T (registerBlock recv_data)) (magOf (registerBlock recv_data)) := by
  unfold serialCallback
  rw [if_pos hg]
  dsimp only
  rw [if_neg (not_not.2 hc)]

theorem serialCallback_published_inv {α : Type} [Field α] (T : Trig α)
    (recv_data : List Nat) (res : Int) (imu : Imu α) (mag : MagneticField α)
    (h : serialCallback T recv_data res = Outcome.published imu mag) :
    imu = imuOf T (registerBlock recv_data) ∧ mag = magOf (registerBlock recv_data) := by
  have hp : (serialCallback T recv_data res).isPublished = true := by rw [h]; rfl
  have hi := (serialCallback_isPublished_iff T recv_data res).1 hp
  rw [serialCallback_eq_published T recv_data res hi.1 hi.2] at h
  injection h with h1 h2
  exact ⟨h1.symm, h2.symm⟩

theorem rawReg_eq_signed16 {buf : List Nat} (hb : ∀ b ∈ buf, b < 256) (i j : Nat) :
    rawReg buf i j = signed16 (buf.getD i 0 * 256 + buf.getD j 0) := by
  have hi := getD_lt hb i
  have hj := getD_lt hb j
  unfold rawReg toInt16 signed16
  rw [shl8_or _ hj]
  have hlt : buf.getD i 0 * 256 + buf.getD j 0 < 65536 := by omega
  rw [Nat.mod_eq_of_lt hlt]
  by_cases h : buf.getD i 0 * 256 + buf.getD j 0 < 32768
  · rw [if_pos h, if_neg (by omega)]
  · rw [if_neg h, if_pos (by omega)]

theorem serialCallback_eq_ignored {α : Type} [Field α] (T : Trig α)
    (recv_data : List Nat) (res : Int)
    (hg : ¬ (recv_data.getD 0 0 = 0x50 ∧ res = (recv_data.getD 2 0 : Int) + 5 ∧
      recv_data.getD 1 0 = 0x03)) :
    serialCallback T recv_data res = Outcome.ignored := by
  unfold serialCallback
  rw [if_neg hg]

theorem serialCallback_eq_crcIncorrect {α : Type} [Field α] (T : Trig α)
    (recv_data : List Nat) (res : Int)
    (hg : recv_data.getD 0 0 = 0x50 ∧ res = (recv_data.getD 2 0 : Int) + 5 ∧
      recv_data.getD 1 0 = 0x03)
    (hc : getCrc recv_data (toUInt8 (res - 2)) ≠
      (recv_data.getD (res - 2).toNat 0 <<< 8 ||| recv_data.getD (res - 1).toNat 0)) :
    serialCallback T recv_data res = Outcome.crcIncorrect := by
  unfold serialCallback
  rw [if_pos hg]
  dsimp only
  rw [if_pos hc]

/-- The value returned by `getCrc` is the pair left by the loop, packed. -/
theorem getCrc_eq_pack (datas_ : List Nat) (n : Nat) (hn : n ≤ 255) :
    getCrc datas_ n = (getCrcLoop datas_ n).1 <<< 8 ||| (getCrcLoop datas_ n).2 := by
  rw [getCrc_eq datas_ n hn, shl8_or _ (getCrcLoop_lt datas_ n).2]

theorem getD_set_self {buf : List Nat} {i : Nat} (v : Nat) (hi : i < buf.length) :
    (buf.set i v).getD i 0 = v := by
  rw [List.getD_eq_getElem _ _ (by rw [List.length_set]; exact hi)]
  simp

theorem getD_set_ne (buf : List Nat) {i k : Nat} (v : Nat) (hik : k ≠ i) :
    (buf.set i v).getD k 0 = buf.getD k 0 := by
  rw [List.getD_eq_getElem?_getD, List.getD_eq_getElem?_getD, List.getElem?_set_ne (Ne.symm hik)]

/-! ## Further lemmas: orientation, residue, replaced bytes, loop counter, ranges -/

/-- The quaternion of `setRPY` has norm 1 as soon as `sin² + cos² = 1`. -/
theorem setRPY_norm {α : Type} [Field α] (T : Trig α)
    (hT : ∀ x, T.sin x ^ 2 + T.cos x ^ 2 = 1) (roll pitch yaw : α) :
    (setRPY T roll pitch yaw).x ^ 2 + (setRPY T roll pitch yaw).y ^ 2 +
      (setRPY T roll pitch yaw).z ^ 2 + (setRPY T roll pitch yaw).w ^ 2 = 1 := by
  have hr := hT (roll * (1 / 2))
  have hp := hT (pitch * (1 / 2))
  have hy := hT (yaw * (1 / 2))
  simp only [setRPY]
  calc _ = (T.sin (roll * (1 / 2)) ^ 2 + T.cos (roll * (1 / 2)) ^ 2) *
        (T.sin (pitch * (1 / 2)) ^ 2 + T.cos (pitch * (1 / 2)) ^ 2) *
        (T.sin (yaw * (1 / 2)) ^ 2 + T.cos (yaw * (1 / 2)) ^ 2) := by ring
    _ = 1 := by rw [hr, hp, hy]; norm_num

/-- The last two passes of the loop over a sequence followed by its own checksum
bytes: the pair goes from `(h, l)` to `(l, 0)` and then to `(0, 0)`. -/
theorem crcStep_own_bytes {st : Nat × Nat} (h2 : st.2 < 256) :
    crcStep (crcStep st st.1) st.2 = (0, 0) := by
  have e1 : crcStep st st.1 = (st.2, 0) := by
    simp only [crcStep, Nat.xor_self, and_ff]
    rw [show crc_high_array.getD (0 % 256) 0 = 0 by decide,
      show crc_low_array.getD (0 % 256) 0 = 0 by decide, Nat.xor_zero, Nat.mod_eq_of_lt h2]
  rw [e1]
  simp only [crcStep, Nat.xor_self, and_ff]
  rw [show crc_high_array.getD (0 % 256) 0 = 0 by decide,
    show crc_low_array.getD (0 % 256) 0 = 0 by decide]
  rfl

theorem getD_append_left (m t : List Nat) {k : Nat} (hk : k < m.length) :
    (m ++ t).getD k 0 = m.getD k 0 := by
  rw [List.getD_eq_getElem?_getD, List.getD_eq_getElem?_getD, List.getElem?_append_left hk]

theorem getD_append_right (m t : List Nat) (k : Nat) :
    (m ++ t).getD (m.length + k) 0 = t.getD k 0 := by
  rw [List.getD_eq_getElem?_getD, List.getD_eq_getElem?_getD,
    List.getElem?_append_right (Nat.le_add_right _ _), Nat.add_sub_cancel_left]

/-- What `serialCallback` does with an accepted frame of at most 257 bytes in
which one byte has been replaced by another value. -/
theorem replaced_byte_outcome {α : Type} [Field α] (T : Trig α) (buf : List Nat) (n i v : Nat)
    (hb : ∀ b ∈ buf, b < 256) (hn : n ≤ buf.length) (hmax : n ≤ 257)
    (hacc : (serialCallback T buf n).isPublished = true) (hi : i < n)
    (hv : v < 256) (hne : v ≠ buf.getD i 0) :
    (3 ≤ i → serialCallback T (buf.set i v) n = Outcome.crcIncorrect) ∧
      (i < 3 → serialCallback T (buf.set i v) n = Outcome.ignored) := by
  obtain ⟨⟨g0, g2, g1⟩, hc⟩ := (serialCallback_isPublished_iff T buf n).1 hacc
  have hil : i < buf.length := lt_of_lt_of_le hi hn
  have hn5 : 5 ≤ n := by omega
  have e1 : toUInt8 ((n : Int) - 2) = n - 2 := by
    unfold toUInt8
    omega
  have e2 : ((n : Int) - 2).toNat = n - 2 := by omega
  have e3 : ((n : Int) - 1).toNat = n - 2 + 1 := by omega
  rw [e1, e2, e3, getCrc_eq_pack _ _ (by omega)] at hc
  obtain ⟨hc1, hc2⟩ := pack_inj (getCrcLoop_lt buf (n - 2)).2 (getD_lt hb _) hc
  have hself : (buf.set i v).getD i 0 = v := getD_set_self _ hil
  have hdiff : (buf.set i v).getD i 0 ≠ buf.getD i 0 := by
    rw [hself]
    exact hne
  have hsame : ∀ k, k ≠ i → (buf.set i v).getD k 0 = buf.getD k 0 :=
    fun k hk => getD_set_ne buf _ hk
  have hb' : ∀ k, (buf.set i v).getD k 0 < 256 := by
    intro k
    by_cases hk : k = i
    · rw [hk, hself]
      exact hv
    · rw [hsame k hk]
      exact getD_lt hb k
  constructor
  · intro h3
    apply serialCallback_eq_crcIncorrect
    · rw [hsame 0 (by omega), hsame 1 (by omega), hsame 2 (by omega)]
      exact ⟨g0, g2, g1⟩
    · rw [e1, e2, e3, getCrc_eq_pack _ _ (by omega)]
      intro hc'
      obtain ⟨hc1', hc2'⟩ := pack_inj (getCrcLoop_lt _ (n - 2)).2 (hb' _) hc'
      by_cases hlt : i < n - 2
      · refine getCrcLoop_ne (n - 2) hlt (fun m _ => hb' m) (fun m _ => getD_lt hb m) hdiff
          (fun m _ hm => hsame m hm) ?_
        refine Prod.ext ?_ ?_
        · rw [hc1', hc1, hsame _ (by omega)]
        · rw [hc2', hc2, hsame _ (by omega)]
      · have hloop : getCrcLoop (buf.set i v) (n - 2) = getCrcLoop buf (n - 2) :=
          getCrcLoop_congr _ (fun m hm => hsame m (by omega))
        rw [hloop] at hc1' hc2'
        by_cases him : i = n - 2
        · have hbyte := hc1'.symm.trans hc1
          rw [← him] at hbyte
          exact hdiff hbyte
        · have him' : i = n - 2 + 1 := by omega
          have hbyte := hc2'.symm.trans hc2
          rw [← him'] at hbyte
          exact hdiff hbyte
  · intro h3
    apply serialCallback_eq_ignored
    rintro ⟨g0', g2', g1'⟩
    have hcases : i = 0 ∨ i = 1 ∨ i = 2 := by omega
    rcases hcases with h | h | h
    · subst h
      exact hdiff (by rw [g0', g0])
    · subst h
      exact hdiff (by rw [g1', g1])
    · subst h
      apply hdiff
      rw [g2] at g2'
      omega

set_option maxRecDepth 100000 in
theorem crc_high_array_length : crc_high_array.length = 256 := by decide

theorem crcStepChecked_eq (st : Nat × Nat) (d : Nat) :
    crcStepChecked st d = some (crcStep st d) := by
  have hidx : (st.1 ^^^ d) &&& 0xff < 256 := by
    rw [and_ff]
    exact Nat.mod_lt _ (by decide)
  have hh : crc_high_array.get? ((st.1 ^^^ d) &&& 0xff) =
      some (crc_high_array.getD ((st.1 ^^^ d) &&& 0xff) 0) := by
    have hl : (st.1 ^^^ d) &&& 0xff < crc_high_array.length := by
      rw [crc_high_array_length]
      exact hidx
    rw [List.get?_eq_getElem?, List.getElem?_eq_getElem hl, List.getD_eq_getElem _ _ hl]
  have hlo : crc_low_array.get? ((st.1 ^^^ d) &&& 0xff) =
      some (crc_low_array.getD ((st.1 ^^^ d) &&& 0xff) 0) := by
    have hl : (st.1 ^^^ d) &&& 0xff < crc_low_array.length := by
      rw [crc_low_array_length]
      exact hidx
    rw [List.get?_eq_getElem?, List.getElem?_eq_getElem hl, List.getD_eq_getElem _ _ hl]
  unfold crcStepChecked crcStep
  simp only [hh, hlo]

/-- From the counter value `i`, the loop makes the remaining `size_ - i`
iterations and stops, the counter never wrapping. -/
theorem getCrcFor_from (datas_ : List Nat) (size_ : Nat) (hsize : size_ ≤ 255) (k i : Nat)
    (hk : i + k = size_) :
    getCrcFor datas_ size_ (k + 1) i (getCrcLoop datas_ i) =
      some (getCrcLoop datas_ size_, k) := by
  induction k generalizing i with
  | zero =>
    have hi : i = size_ := by omega
    subst hi
    simp [getCrcFor]
  | succ k ih =>
    have hlt : i < size_ := by omega
    have hwrap : (i + 1) % 256 = i + 1 := Nat.mod_eq_of_lt (by omega)
    have hnext := ih (i + 1) (by omega)
    rw [getCrcFor, if_pos hlt, crcStepChecked_eq, hwrap]
    simp only []
    rw [show crcStep (getCrcLoop datas_ i) (datas_.getD i 0) = getCrcLoop datas_ (i + 1) from rfl,
      hnext]

theorem toInt16_range (x : Nat) : -32768 ≤ toInt16 x ∧ toInt16 x < 32768 := by
  unfold toInt16
  split_ifs with h <;> omega

/-- The scaling `v / 32768 * R` of a signed 16-bit value by a positive range. -/
theorem scaled_range {α : Type} [LinearOrderedField α] (v : Int) (hlo : -32768 ≤ v)
    (hhi : v < 32768) (R : α) (hR : 0 < R) :
    -R ≤ (v : α) / 32768 * R ∧ (v : α) / 32768 * R < R ∧
      (v : α) / 32768 * R ≤ 32767 / 32768 * R ∧
      ((v : α) / 32768 * R = -R ↔ v = -32768) ∧
      ((v : α) / 32768 * R = 32767 / 32768 * R ↔ v = 32767) := by
  have h1 : ((-32768 : Int) : α) ≤ (v : α) := Int.cast_le.2 hlo
  have h2 : (v : α) ≤ ((32767 : Int) : α) := Int.cast_le.2 (by omega)
  push_cast at h1 h2
  have e : (v : α) / 32768 * R = (v : α) * (R / 32768) := by ring
  have hpos : 0 < R / 32768 := by positivity
  refine ⟨?_, ?_, ?_, ?_, ?_⟩
  · rw [e]
    have := mul_le_mul_of_nonneg_right h1 hpos.le
    linarith
  · rw [e]
    have := mul_le_mul_of_nonneg_right h2 hpos.le
    linarith
  · rw [e]
    have := mul_le_mul_of_nonneg_right h2 hpos.le
    linarith
  · constructor
    · intro h
      rw [e] at h
      have h3 : ((v : α) + 32768) * (R / 32768) = 0 := by linarith
      rcases mul_eq_zero.1 h3 with h4 | h4
      · have h5 : ((v + 32768 : Int) : α) = 0 := by push_cast; exact h4
        have := Int.cast_eq_zero.1 h5
        omega
      · exact absurd h4 (ne_of_gt hpos)
    · intro h
      rw [h]
      push_cast
      ring
  · constructor
    · intro h
      rw [e] at h
      have h3 : ((v : α) - 32767) * (R / 32768) = 0 := by linarith
      rcases mul_eq_zero.1 h3 with h4 | h4
      · have h5 : ((v - 32767 : Int) : α) = 0 := by push_cast; exact h4
        have := Int.cast_eq_zero.1 h5
        omega
      · exact absurd h4 (ne_of_gt hpos)
    · intro h
      rw [h]
      push_cast
      ring

/-! ## The claims -/

set_option maxRecDepth 100000 in
/-- C1 (the code at the failing input). The 258-byte response `frame258` is
published although its trailer `0xFFFF` is not the checksum of its first 256
bytes: the byte count 256 passed to `getCrc` becomes 0 in the `uint8_t`
parameter, so the checksum compared is that of the empty prefix. -/
theorem serialCallback_publishes_frame258 {α : Type} [Field α] (T : Trig α) :
    (serialCallback T frame258 258).isPublished = true ∧
      frame258.length = 258 ∧
      (frame258.getD 256 0 <<< 8 ||| frame258.getD 257 0) = 0xFFFF ∧
      getCrc frame258 (toUInt8 (258 - 2)) = 0xFFFF ∧
      getCrcLoop frame258 256 = (0x1C, 0xF5) ∧
      crc16 (frame258.take 256) = 0xF51C := by
  have hloop : getCrcLoop frame258 256 = (0x1C, 0xF5) := by decide
  have hstd : crc16 (frame258.take 256) = 0xF51C := by
    rw [← getCrcLoop_eq_crc16 frame258 (by decide) 256 (by decide), hloop]
    rfl
  refine ⟨?_, by decide, by decide, by decide, hloop, hstd⟩
  rw [serialCallback_isPublished_iff]
  decide

/-- C2. A 29-byte buffer that starts `0x50 0x03 0x18` and ends with the high
and low byte of `getCrc` over its first 27 bytes is published, and the reading
is the one computed from the twelve registers `accelX .. yaw`, register `k`
being the signed 16-bit value of `buf[3+2k] * 256 + buf[4+2k]`. -/
theorem serialCallback_decodes_telemetry {α : Type} [Field α] (T : Trig α) (buf : List Nat)
    (_hlen : buf.length = 29) (hb : ∀ b ∈ buf, b < 256)
    (h0 : buf.getD 0 0 = 0x50) (h1 : buf.getD 1 0 = 0x03) (h2 : buf.getD 2 0 = 0x18)
    (h27 : buf.getD 27 0 = getCrc buf 27 >>> 8)
    (h28 : buf.getD 28 0 = getCrc buf 27 &&& 0xff) :
    serialCallback T buf 29 =
        Outcome.published
          (imuOf T
            { accelX := signed16 (buf.getD 3 0 * 256 + buf.getD 4 0)
              accelY := signed16 (buf.getD 5 0 * 256 + buf.getD 6 0)
              accelZ := signed16 (buf.getD 7 0 * 256 + buf.getD 8 0)
              gyroX := signed16 (buf.getD 9 0 * 256 + buf.getD 10 0)
              gyroY := signed16 (buf.getD 11 0 * 256 + buf.getD 12 0)
              gyroZ := signed16 (buf.getD 13 0 * 256 + buf.getD 14 0)
              magX := signed16 (buf.getD 15 0 * 256 + buf.getD 16 0)
              magY := signed16 (buf.getD 17 0 * 256 + buf.getD 18 0)
              magZ := signed16 (buf.getD 19 0 * 256 + buf.getD 20 0)
              roll := signed16 (buf.getD 21 0 * 256 + buf.getD 22 0)
              pitch := signed16 (buf.getD 23 0 * 256 + buf.getD 24 0)
              yaw := signed16 (buf.getD 25 0 * 256 + buf.getD 26 0) })
          (magOf
            { accelX := signed16 (buf.getD 3 0 * 256 + buf.getD 4 0)
              accelY := signed16 (buf.getD 5 0 * 256 + buf.getD 6 0)
              accelZ := signed16 (buf.getD 7 0 * 256 + buf.getD 8 0)
              gyroX := signed16 (buf.getD 9 0 * 256 + buf.getD 10 0)
              gyroY := signed16 (buf.getD 11 0 * 256 + buf.getD 12 0)
              gyroZ := signed16 (buf.getD 13 0 * 256 + buf.getD 14 0)
              magX := signed16 (buf.getD 15 0 * 256 + buf.getD 16 0)
              magY := signed16 (buf.getD 17 0 * 256 + buf.getD 18 0)
              magZ := signed16 (buf.getD 19 0 * 256 + buf.getD 20 0)
              roll := signed16 (buf.getD 21 0 * 256 + buf.getD 22 0)
              pitch := signed16 (buf.getD 23 0 * 256 + buf.getD 24 0)
              yaw := signed16 (buf.getD 25 0 * 256 + buf.getD 26 0) }) := by
  have hg : buf.getD 0 0 = 0x50 ∧ (29 : Int) = (buf.getD 2 0 : Int) + 5 ∧
      buf.getD 1 0 = 0x03 := by
    refine ⟨h0, ?_, h1⟩
    rw [h2]
    rfl
  have hc : getCrc buf (toUInt8 (29 - 2)) =
      (buf.getD ((29 : Int) - 2).toNat 0 <<< 8 ||| buf.getD ((29 : Int) - 1).toNat 0) := by
    have e1 : toUInt8 (29 - 2) = 27 := by decide
    have e2 : ((29 : Int) - 2).toNat = 27 := by decide
    have e3 : ((29 : Int) - 1).toNat = 28 := by decide
    rw [e1, e2, e3, h27, h28, split_word]
  rw [serialCallback_eq_published T buf 29 hg hc]
  simp only [registerBlock, rawReg_eq_signed16 hb]

set_option maxRecDepth 100000 in
/-- C2, at the frame `frameCount` and over the reals. -/
theorem serialCallback_decodes_telemetry_witness :
    (frameCount.length = 29 ∧ (∀ b ∈ frameCount, b < 256) ∧
      frameCount.getD 27 0 = getCrc frameCount 27 >>> 8 ∧
      frameCount.getD 28 0 = getCrc frameCount 27 &&& 0xff) ∧
    serialCallback (Trig.mk Real.pi Real.sin Real.cos) frameCount 29 =
      Outcome.published
        (imuOf (Trig.mk Real.pi Real.sin Real.cos)
          { accelX := 258, accelY := 772, accelZ := 1286, gyroX := 1800, gyroY := 2314,
            gyroZ := 2828, magX := 3342, magY := 3856, magZ := 4370, roll := 4884,
            pitch := 5398, yaw := 5912 })
        (magOf
          { accelX := 258, accelY := 772, accelZ := 1286, gyroX := 1800, gyroY := 2314,
            gyroZ := 2828, magX := 3342, magY := 3856, magZ := 4370, roll := 4884,
            pitch := 5398, yaw := 5912 }) :=
  ⟨⟨by decide, by decide, by decide, by decide⟩,
    serialCallback_decodes_telemetry (Trig.mk Real.pi Real.sin Real.cos) frameCount
      (by decide) (by decide) (by decide) (by decide) (by decide) (by decide) (by decide)⟩

/-- C3. When the first byte is not `0x50`, or the second is not `0x03`, or the
byte count differs from the third byte plus 5, `serialCallback` does nothing:
no reading is published, whatever the byte count (negative or small), the
other bytes and the checksum are. -/
theorem serialCallback_ignores_bad_envelope {α : Type} [Field α] (T : Trig α)
    (recv_data : List Nat) (res : Int)
    (h : recv_data.getD 0 0 ≠ 0x50 ∨ recv_data.getD 1 0 ≠ 0x03 ∨
      res ≠ (recv_data.getD 2 0 : Int) + 5) :
    serialCallback T recv_data res = Outcome.ignored ∧
      (serialCallback T recv_data res).isPublished = false := by
  have hg : ¬ (recv_data.getD 0 0 = 0x50 ∧ res = (recv_data.getD 2 0 : Int) + 5 ∧
      recv_data.getD 1 0 = 0x03) := by
    rintro ⟨a, b, c⟩
    rcases h with h | h | h
    · exact h a
    · exact h c
    · exact h b
  have he : serialCallback T recv_data res = Outcome.ignored := by
    unfold serialCallback
    rw [if_neg hg]
  exact ⟨he, by rw [he]; rfl⟩

set_option maxRecDepth 100000 in
/-- C3, at the frame `frameCount` (whose checksum is right) announced with 28
bytes instead of 29. -/
theorem serialCallback_ignores_bad_envelope_witness :
    (frameCount.getD 0 0 ≠ 0x50 ∨ frameCount.getD 1 0 ≠ 0x03 ∨
      (28 : Int) ≠ (frameCount.getD 2 0 : Int) + 5) ∧
    (serialCallback (Trig.mk Real.pi Real.sin Real.cos) frameCount 28 = Outcome.ignored ∧
      (serialCallback (Trig.mk Real.pi Real.sin Real.cos) frameCount 28).isPublished = false) :=
  ⟨by decide,
    serialCallback_ignores_bad_envelope (Trig.mk Real.pi Real.sin Real.cos) frameCount 28
      (by decide)⟩

set_option maxRecDepth 100000 in
/-- C4 (counterexample). On the six request bytes `0x50 0x03 0x00 0x34 0x00
0x0C` the value `(high << 8) | low` returned by `getCrc` is `0x0980`, while the
standard reflected CRC-16 of the bit-shift loop is `0x8009`. -/
theorem getCrc_ne_crc16_on_request :
    ([0x50, 0x03, 0x00, 0x34, 0x00, 0x0C] : List Nat).length ≤ 255 ∧
      getCrc [0x50, 0x03, 0x00, 0x34, 0x00, 0x0C] 6 = 0x0980 ∧
      crc16 [0x50, 0x03, 0x00, 0x34, 0x00, 0x0C] = 0x8009 ∧
      getCrc [0x50, 0x03, 0x00, 0x34, 0x00, 0x0C] 6 ≠ crc16 [0x50, 0x03, 0x00, 0x34, 0x00, 0x0C] := by
  decide

/-- C4 (amended). For every byte sequence of length at most 255, the value
returned by the table-driven `getCrc` with its two bytes exchanged, that is
`(low << 8) | high`, equals the standard reflected CRC-16 of the sequence
computed by the bit-shift loop (seed `0xFFFF`, polynomial `0xA001`, no final XOR). -/
theorem getCrc_bytes_exchanged_eq_crc16 (bytes : List Nat) (hb : ∀ b ∈ bytes, b < 256)
    (hlen : bytes.length ≤ 255) :
    (getCrc bytes bytes.length &&& 0xff) <<< 8 ||| (getCrc bytes bytes.length >>> 8) =
      crc16 bytes := by
  have h := getCrcLoop_eq_crc16 bytes hb bytes.length (le_refl _)
  have hlt := getCrcLoop_lt bytes bytes.length
  rw [List.take_length] at h
  rw [← h, getCrc_eq bytes _ hlen]
  unfold regOf
  rw [and_ff, Nat.shiftRight_eq_div_pow]
  have e1 : ((getCrcLoop bytes bytes.length).1 * 256 + (getCrcLoop bytes bytes.length).2) % 256
      = (getCrcLoop bytes bytes.length).2 := by omega
  have e2 : ((getCrcLoop bytes bytes.length).1 * 256 + (getCrcLoop bytes bytes.length).2) / 2 ^ 8
      = (getCrcLoop bytes bytes.length).1 := by omega
  rw [e1, e2, shl8_or _ hlt.1]

set_option maxRecDepth 100000 in
/-- C4 (amended), at the six request bytes. -/
theorem getCrc_bytes_exchanged_eq_crc16_witness :
    ((∀ b ∈ ([0x50, 0x03, 0x00, 0x34, 0x00, 0x0C] : List Nat), b < 256) ∧
      ([0x50, 0x03, 0x00, 0x34, 0x00, 0x0C] : List Nat).length ≤ 255) ∧
    (getCrc [0x50, 0x03, 0x00, 0x34, 0x00, 0x0C]
        ([0x50, 0x03, 0x00, 0x34, 0x00, 0x0C] : List Nat).length &&& 0xff) <<< 8 |||
      (getCrc [0x50, 0x03, 0x00, 0x34, 0x00, 0x0C]
        ([0x50, 0x03, 0x00, 0x34, 0x00, 0x0C] : List Nat).length >>> 8) =
      crc16 [0x50, 0x03, 0x00, 0x34, 0x00, 0x0C] :=
  ⟨⟨by decide, by decide⟩,
    getCrc_bytes_exchanged_eq_crc16 [0x50, 0x03, 0x00, 0x34, 0x00, 0x0C] (by decide) (by decide)⟩

set_option maxRecDepth 100000 in
/-- C5. The request of `timerCallback` has 8 bytes: `0x50 0x03 0x00 0x34 0x00
0x0C`, then two bytes `h`, `l` with `(h << 8) | l` equal to `getCrc` over the
first 6 bytes of that buffer, `h` being its high byte and `l` its low byte. -/
theorem timerCallback_request :
    timerCallback.length = 8 ∧
      timerCallback.take 6 = [0x50, 0x03, 0x00, 0x34, 0x00, 0x0C] ∧
      (timerCallback.getD 6 0 <<< 8 ||| timerCallback.getD 7 0) = getCrc timerCallback 6 ∧
      timerCallback.getD 6 0 = getCrc timerCallback 6 / 256 ∧
      timerCallback.getD 7 0 = getCrc timerCallback 6 % 256 := by
  decide

set_option maxRecDepth 100000 in
/-- C6 (counterexample). The frame `frameCount` is published; with bit 0 of its
first byte flipped it is rejected by the condition of line 74, without the
checksum warning. -/
theorem flipped_header_bit_not_crcIncorrect :
    (serialCallback (Trig.mk Real.pi Real.sin Real.cos) frameCount 29).isPublished = true ∧
      serialCallback (Trig.mk Real.pi Real.sin Real.cos) (flipBit frameCount 0 0) 29 =
        Outcome.ignored ∧
      serialCallback (Trig.mk Real.pi Real.sin Real.cos) (flipBit frameCount 0 0) 29 ≠
        Outcome.crcIncorrect := by
  have h : serialCallback (Trig.mk Real.pi Real.sin Real.cos) (flipBit frameCount 0 0) 29 =
      Outcome.ignored := serialCallback_eq_ignored _ _ _ (by decide)
  refine ⟨?_, h, ?_⟩
  · rw [serialCallback_isPublished_iff]
    decide
  · rw [h]
    intro hc
    cases hc

/-- C6 (amended). For every response of at most 257 bytes that `serialCallback`
publishes and every bit position within its `n` received bytes, the buffer with
that bit flipped is not published: when the bit lies in the bytes at index 3
and above (payload and checksum) the outcome is the warning "receive crc
incorrect", and when it lies in the first three bytes the frame is dropped by
the condition of line 74. -/
theorem flipped_bit_rejected {α : Type} [Field α] (T : Trig α) (buf : List Nat) (n i j : Nat)
    (hb : ∀ b ∈ buf, b < 256) (hn : n ≤ buf.length) (hmax : n ≤ 257)
    (hacc : (serialCallback T buf n).isPublished = true) (hi : i < n) (hj : j < 8) :
    (3 ≤ i → serialCallback T (flipBit buf i j) n = Outcome.crcIncorrect) ∧
      (i < 3 → serialCallback T (flipBit buf i j) n = Outcome.ignored) := by
  obtain ⟨⟨g0, g2, g1⟩, hc⟩ := (serialCallback_isPublished_iff T buf n).1 hacc
  have hil : i < buf.length := lt_of_lt_of_le hi hn
  have hn5 : 5 ≤ n := by omega
  have e1 : toUInt8 ((n : Int) - 2) = n - 2 := by
    unfold toUInt8
    omega
  have e2 : ((n : Int) - 2).toNat = n - 2 := by omega
  have e3 : ((n : Int) - 1).toNat = n - 2 + 1 := by omega
  rw [e1, e2, e3, getCrc_eq_pack _ _ (by omega)] at hc
  obtain ⟨hc1, hc2⟩ := pack_inj (getCrcLoop_lt buf (n - 2)).2 (getD_lt hb _) hc
  have hv : (flipBit buf i j).getD i 0 = buf.getD i 0 ^^^ (1 <<< j) := getD_set_self _ hil
  have hne : (flipBit buf i j).getD i 0 ≠ buf.getD i 0 := by
    rw [hv]
    exact flip_ne _ _
  have hsame : ∀ k, k ≠ i → (flipBit buf i j).getD k 0 = buf.getD k 0 :=
    fun k hk => getD_set_ne buf _ hk
  have hb' : ∀ k, (flipBit buf i j).getD k 0 < 256 := by
    intro k
    by_cases hk : k = i
    · rw [hk, hv]
      exact flip_lt (getD_lt hb i) hj
    · rw [hsame k hk]
      exact getD_lt hb k
  constructor
  · intro h3
    apply serialCallback_eq_crcIncorrect
    · rw [hsame 0 (by omega), hsame 1 (by omega), hsame 2 (by omega)]
      exact ⟨g0, g2, g1⟩
    · rw [e1, e2, e3, getCrc_eq_pack _ _ (by omega)]
      intro hc'
      obtain ⟨hc1', hc2'⟩ := pack_inj (getCrcLoop_lt _ (n - 2)).2 (hb' _) hc'
      by_cases hlt : i < n - 2
      · refine getCrcLoop_ne (n - 2) hlt (fun m _ => hb' m) (fun m _ => getD_lt hb m) hne
          (fun m _ hm => hsame m hm) ?_
        refine Prod.ext ?_ ?_
        · rw [hc1', hc1, hsame _ (by omega)]
        · rw [hc2', hc2, hsame _ (by omega)]
      · have hloop : getCrcLoop (flipBit buf i j) (n - 2) = getCrcLoop buf (n - 2) :=
          getCrcLoop_congr _ (fun m hm => hsame m (by omega))
        rw [hloop] at hc1' hc2'
        by_cases him : i = n - 2
        · have hbyte := hc1'.symm.trans hc1
          rw [← him] at hbyte
          exact hne hbyte
        · have him' : i = n - 2 + 1 := by omega
          have hbyte := hc2'.symm.trans hc2
          rw [← him'] at hbyte
          exact hne hbyte
  · intro h3
    apply serialCallback_eq_ignored
    rintro ⟨g0', g2', g1'⟩
    have hcases : i = 0 ∨ i = 1 ∨ i = 2 := by omega
    rcases hcases with h | h | h
    · subst h
      exact hne (by rw [g0', g0])
    · subst h
      exact hne (by rw [g1', g1])
    · subst h
      apply hne
      rw [g2] at g2'
      omega

set_option maxRecDepth 100000 in
/-- C6 (amended), at the frame `frameCount` with bit 3 of the byte at index 10 flipped. -/
theorem flipped_bit_rejected_witness :
    ((∀ b ∈ frameCount, b < 256) ∧ 29 ≤ frameCount.length ∧ 29 ≤ 257 ∧
      (serialCallback (Trig.mk Real.pi Real.sin Real.cos) frameCount (29 : Nat)).isPublished
        = true ∧ 10 < 29 ∧ 3 < 8) ∧
    ((3 ≤ 10 → serialCallback (Trig.mk Real.pi Real.sin Real.cos) (flipBit frameCount 10 3)
        (29 : Nat) = Outcome.crcIncorrect) ∧
      (10 < 3 → serialCallback (Trig.mk Real.pi Real.sin Real.cos) (flipBit frameCount 10 3)
        (29 : Nat) = Outcome.ignored)) :=
  have hacc : (serialCallback (Trig.mk Real.pi Real.sin Real.cos) frameCount
      (29 : Nat)).isPublished = true := by
    rw [serialCallback_isPublished_iff]
    decide
  ⟨⟨by decide, by decide, by decide, hacc, by decide, by decide⟩,
    flipped_bit_rejected (Trig.mk Real.pi Real.sin Real.cos) frameCount 29 10 3
      (by decide) (by decide) (by decide) hacc (by decide) (by decide)⟩

set_option maxRecDepth 100000 in
/-- C7 (the code at the failing input). The 5-byte response `0x50 0x03 0x00
0x71 0x21`, whose declared data length is 0, is published: the registers are
read from the two checksum bytes and from the 22 bytes that follow the received
frame in the buffer. -/
theorem serialCallback_publishes_frameShort {α : Type} [Field α] (T : Trig α) :
    frameShort.getD 2 0 = 0 ∧
      frameShort.take 5 = [0x50, 0x03, 0x00, 0x71, 0x21] ∧
      serialCallback T frameShort 5 =
        Outcome.published
          (imuOf T
            { accelX := 0x7121, accelY := 772, accelZ := 1286, gyroX := 1800, gyroY := 2314,
              gyroZ := 2828, magX := 3342, magY := 3856, magZ := 4370, roll := 4884,
              pitch := 5398, yaw := 5912 })
          (magOf
            { accelX := 0x7121, accelY := 772, accelZ := 1286, gyroX := 1800, gyroY := 2314,
              gyroZ := 2828, magX := 3342, magY := 3856, magZ := 4370, roll := 4884,
              pitch := 5398, yaw := 5912 }) := by
  refine ⟨by decide, by decide, ?_⟩
  rw [serialCallback_eq_published T frameShort 5 (by decide) (by decide)]
  have hr : registerBlock frameShort =
      { accelX := 0x7121, accelY := 772, accelZ := 1286, gyroX := 1800, gyroY := 2314,
        gyroZ := 2828, magX := 3342, magY := 3856, magZ := 4370, roll := 4884,
        pitch := 5398, yaw := 5912 } := by decide
  rw [hr]

set_option maxRecDepth 100000 in
/-- C8 (counterexample). The frame `frameHalfScale`, whose acceleration X
register is 16384, is published with a linear acceleration X that differs from
`16384 / 32768 * 16 * 9.80665 = 78.4532` by more than 0.05. -/
theorem linear_acceleration_ne_standard_gravity :
    ∃ (imu : Imu ℝ) (mag : MagneticField ℝ),
      serialCallback (Trig.mk Real.pi Real.sin Real.cos) frameHalfScale 29 =
        Outcome.published imu mag ∧
      (registerBlock frameHalfScale).accelX = 16384 ∧
      imu.linear_acceleration.x ≠ 16384 / 32768 * 16 * 9.80665 ∧
      1 / 20 < |imu.linear_acceleration.x - 78.4532| := by
  have hr : (registerBlock frameHalfScale).accelX = 16384 := by decide
  refine ⟨_, _, serialCallback_eq_published _ frameHalfScale 29 (by decide) (by decide), hr, ?_, ?_⟩
  · simp only [imuOf, hr, acc_range, gravity]
    norm_num
  · simp only [imuOf, hr, acc_range, gravity]
    norm_num [abs_lt, lt_abs]

/-- C8 (amended). Whenever a reading is published, the linear acceleration of
each axis is `v / 32768 * 16 * g` for the raw register value `v` of that axis,
where `g = 10276045 / 1048576 = 9.80000019073486328125` is the single-precision
literal `9.8f`; in particular the raw value 16384 yields
`8 * g = 10276045 / 131072 = 78.40000152587890625`. -/
theorem linear_acceleration_scaling {α : Type} [Field α] [CharZero α] (T : Trig α)
    (recv_data : List Nat) (res : Int) (imu : Imu α) (mag : MagneticField α)
    (h : serialCallback T recv_data res = Outcome.published imu mag) :
    imu.linear_acceleration.x =
        ((rawReg recv_data 3 4 : Int) : α) / 32768 * 16 * (10276045 / 1048576) ∧
      imu.linear_acceleration.y =
        ((rawReg recv_data 5 6 : Int) : α) / 32768 * 16 * (10276045 / 1048576) ∧
      imu.linear_acceleration.z =
        ((rawReg recv_data 7 8 : Int) : α) / 32768 * 16 * (10276045 / 1048576) ∧
      (rawReg recv_data 3 4 = 16384 → imu.linear_acceleration.x = 10276045 / 131072) := by
  obtain ⟨himu, _⟩ := serialCallback_published_inv T recv_data res imu mag h
  subst himu
  refine ⟨rfl, rfl, rfl, ?_⟩
  intro hv
  simp only [imuOf, registerBlock, hv, acc_range, gravity]
  norm_num

set_option maxRecDepth 100000 in
/-- C8 (amended), at the frame `frameHalfScale` over the reals. -/
theorem linear_acceleration_scaling_witness :
    serialCallback (Trig.mk Real.pi Real.sin Real.cos) frameHalfScale 29 =
        Outcome.published
          (imuOf (Trig.mk Real.pi Real.sin Real.cos) (registerBlock frameHalfScale))
          (magOf (registerBlock frameHalfScale)) ∧
      rawReg frameHalfScale 3 4 = 16384 ∧
      (imuOf (Trig.mk Real.pi Real.sin Real.cos)
        (registerBlock frameHalfScale)).linear_acceleration.x = (10276045 / 131072 : ℝ) :=
  have hp := serialCallback_eq_published (Trig.mk Real.pi Real.sin Real.cos) frameHalfScale 29
    (by decide) (by decide)
  have hv : rawReg frameHalfScale 3 4 = 16384 := by decide
  ⟨hp, hv, (linear_acceleration_scaling (Trig.mk Real.pi Real.sin Real.cos) frameHalfScale 29
    _ _ hp).2.2.2 hv⟩

/-- C9. Whenever a reading is published, the angular velocity of each gyro
axis is exactly `v / 32768 * 2000` and the magnetic field of each magnetometer
axis is exactly `v / 32768 * 1`, for the raw register value `v` of that axis,
with no further factor. -/
theorem angular_velocity_magnetic_field_scaling {α : Type} [Field α] (T : Trig α)
    (recv_data : List Nat) (res : Int) (imu : Imu α) (mag : MagneticField α)
    (h : serialCallback T recv_data res = Outcome.published imu mag) :
    imu.angular_velocity.x = ((rawReg recv_data 9 10 : Int) : α) / 32768 * 2000 ∧
      imu.angular_velocity.y = ((rawReg recv_data 11 12 : Int) : α) / 32768 * 2000 ∧
      imu.angular_velocity.z = ((rawReg recv_data 13 14 : Int) : α) / 32768 * 2000 ∧
      mag.magnetic_field.x = ((rawReg recv_data 15 16 : Int) : α) / 32768 * 1 ∧
      mag.magnetic_field.y = ((rawReg recv_data 17 18 : Int) : α) / 32768 * 1 ∧
      mag.magnetic_field.z = ((rawReg recv_data 19 20 : Int) : α) / 32768 * 1 := by
  obtain ⟨himu, hmag⟩ := serialCallback_published_inv T recv_data res imu mag h
  subst himu
  subst hmag
  exact ⟨rfl, rfl, rfl, rfl, rfl, rfl⟩

set_option maxRecDepth 100000 in
/-- C9, at the frame `frameCount` over the reals: the gyro X register 1800
gives `1800 / 32768 * 2000`. -/
theorem angular_velocity_magnetic_field_scaling_witness :
    serialCallback (Trig.mk Real.pi Real.sin Real.cos) frameCount 29 =
        Outcome.published
          (imuOf (Trig.mk Real.pi Real.sin Real.cos) (registerBlock frameCount))
          (magOf (registerBlock frameCount)) ∧
      rawReg frameCount 9 10 = 1800 ∧
      (imuOf (Trig.mk Real.pi Real.sin Real.cos)
        (registerBlock frameCount)).angular_velocity.x =
          (((rawReg frameCount 9 10 : Int) : ℝ) / 32768 * 2000) :=
  have hp := serialCallback_eq_published (Trig.mk Real.pi Real.sin Real.cos) frameCount 29
    (by decide) (by decide)
  ⟨hp, by decide, (angular_velocity_magnetic_field_scaling
    (Trig.mk Real.pi Real.sin Real.cos) frameCount 29 _ _ hp).1⟩

set_option maxRecDepth 100000 in
/-- C10. The 29-byte response `0x50 0x03 0x18`, 24 zero bytes, then the high
and low byte of `getCrc` over those 27 bytes, is published; its twelve raw
registers are 0, the linear accelerations, angular velocities and magnetic field
components are 0, roll, pitch and yaw are 0, and the orientation quaternion is
`(x, y, z, w) = (0, 0, 0, 1)`. The mathematics library is only asked that
`sin 0 = 0` and `cos 0 = 1`. -/
theorem serialCallback_zero_frame {α : Type} [Field α] (T : Trig α)
    (hsin : T.sin 0 = 0) (hcos : T.cos 0 = 1) :
    frameZero = [0x50, 0x03, 0x18] ++ List.replicate 24 0 ++
        [getCrc ([0x50, 0x03, 0x18] ++ List.replicate 24 0) 27 >>> 8,
          getCrc ([0x50, 0x03, 0x18] ++ List.replicate 24 0) 27 &&& 0xff] ∧
      registerBlock frameZero =
        { accelX := 0, accelY := 0, accelZ := 0, gyroX := 0, gyroY := 0, gyroZ := 0,
          magX := 0, magY := 0, magZ := 0, roll := 0, pitch := 0, yaw := 0 } ∧
      rpyOf T (registerBlock frameZero) = { x := 0, y := 0, z := 0 } ∧
      serialCallback T frameZero 29 =
        Outcome.published
          ({ orientation := { x := 0, y := 0, z := 0, w := 1 }
             angular_velocity := { x := 0, y := 0, z := 0 }
             linear_acceleration := { x := 0, y := 0, z := 0 } } : Imu α)
          ({ magnetic_field := { x := 0, y := 0, z := 0 } } : MagneticField α) := by
  have hr : registerBlock frameZero =
      { accelX := 0, accelY := 0, accelZ := 0, gyroX := 0, gyroY := 0, gyroZ := 0,
        magX := 0, magY := 0, magZ := 0, roll := 0, pitch := 0, yaw := 0 } := by decide
  have hrpy : rpyOf T (registerBlock frameZero) = { x := 0, y := 0, z := 0 } := by
    rw [hr]
    simp [rpyOf]
  refine ⟨by decide, hr, hrpy, ?_⟩
  rw [serialCallback_eq_published T frameZero 29 (by decide) (by decide)]
  unfold imuOf magOf
  rw [hrpy, hr]
  simp [setRPY, hsin, hcos]

/-- C10, with the sine and cosine of the real numbers. -/
theorem serialCallback_zero_frame_witness :
    (Real.sin 0 = 0 ∧ Real.cos 0 = 1) ∧
    serialCallback (Trig.mk Real.pi Real.sin Real.cos) frameZero 29 =
      Outcome.published
        ({ orientation := { x := 0, y := 0, z := 0, w := 1 }
           angular_velocity := { x := 0, y := 0, z := 0 }
           linear_acceleration := { x := 0, y := 0, z := 0 } } : Imu ℝ)
        ({ magnetic_field := { x := 0, y := 0, z := 0 } } : MagneticField ℝ) :=
  ⟨⟨Real.sin_zero, Real.cos_zero⟩,
    (serialCallback_zero_frame (Trig.mk Real.pi Real.sin Real.cos)
      Real.sin_zero Real.cos_zero).2.2.2⟩

/-- C11 (counterexample). On the link `linkDown`, whose first write fails,
`accelCalibration` still makes the second write, and its calls are those it
makes on the link `linkUp`: nothing tells the caller of the failure. -/
theorem accelCalibration_writes_twice_on_linkDown :
    linkDown.writeOk 0 [0xFF, 0xAA, 0x69, 0x88, 0x5B] = false ∧
      LinkAction.write [0xFF, 0xAA, 0x01, 0x01, 0x00] ∈ accelCalibration linkDown ∧
      accelCalibration linkDown = accelCalibration linkUp := by
  decide

/-- C11 (amended). For every link whose first write fails, `accelCalibration`
ignores the failure: it reports nothing to its caller and goes on as on a
working link, waiting 100 ms, sending the calibration-start command and
waiting 5500 ms. -/
theorem accelCalibration_ignores_write_failure (link : Link)
    (hfail : link.writeOk 0 [0xFF, 0xAA, 0x69, 0x88, 0x5B] = false) :
    accelCalibration link =
        [LinkAction.write [0xFF, 0xAA, 0x69, 0x88, 0x5B], LinkAction.sleep 100,
          LinkAction.write [0xFF, 0xAA, 0x01, 0x01, 0x00], LinkAction.sleep 5500] ∧
      accelCalibration link = accelCalibration linkUp := by
  have _h := hfail
  exact ⟨rfl, rfl⟩

/-- C11 (amended), on the link `linkDown`. -/
theorem accelCalibration_ignores_write_failure_witness :
    linkDown.writeOk 0 [0xFF, 0xAA, 0x69, 0x88, 0x5B] = false ∧
    (accelCalibration linkDown =
        [LinkAction.write [0xFF, 0xAA, 0x69, 0x88, 0x5B], LinkAction.sleep 100,
          LinkAction.write [0xFF, 0xAA, 0x01, 0x01, 0x00], LinkAction.sleep 5500] ∧
      accelCalibration linkDown = accelCalibration linkUp) :=
  ⟨rfl, accelCalibration_ignores_write_failure linkDown rfl⟩

/-- C12. On a link whose writes succeed, the calls made by `accelCalibration`
are exactly: write `0xFF 0xAA 0x69 0x88 0x5B`, wait 100 ms, write `0xFF 0xAA
0x01 0x01 0x00`, wait 5500 ms, in that order, with no other write and no read. -/
theorem accelCalibration_sequence (link : Link)
    (hok : ∀ k bytes, link.writeOk k bytes = true) :
    accelCalibration link =
        [LinkAction.write [0xFF, 0xAA, 0x69, 0x88, 0x5B], LinkAction.sleep 100,
          LinkAction.write [0xFF, 0xAA, 0x01, 0x01, 0x00], LinkAction.sleep 5500] ∧
      LinkAction.read ∉ accelCalibration link ∧
      (accelCalibration link).length = 4 := by
  have _h := hok
  have hseq : accelCalibration link =
      [LinkAction.write [0xFF, 0xAA, 0x69, 0x88, 0x5B], LinkAction.sleep 100,
        LinkAction.write [0xFF, 0xAA, 0x01, 0x01, 0x00], LinkAction.sleep 5500] := rfl
  refine ⟨hseq, ?_, ?_⟩
  · rw [hseq]
    decide
  · rw [hseq]
    rfl

/-- C12, on the link `linkUp`. -/
theorem accelCalibration_sequence_witness :
    (∀ k bytes, linkUp.writeOk k bytes = true) ∧
    (accelCalibration linkUp =
        [LinkAction.write [0xFF, 0xAA, 0x69, 0x88, 0x5B], LinkAction.sleep 100,
          LinkAction.write [0xFF, 0xAA, 0x01, 0x01, 0x00], LinkAction.sleep 5500] ∧
      LinkAction.read ∉ accelCalibration linkUp ∧
      (accelCalibration linkUp).length = 4) :=
  ⟨fun _ _ => rfl, accelCalibration_sequence linkUp (fun _ _ => rfl)⟩

/-- C13. Whenever a reading is published, whatever the raw roll, pitch and yaw
registers are, the orientation quaternion `(x, y, z, w)` built by `setRPY` from
the converted angles has norm 1 over the real numbers:
`x^2 + y^2 + z^2 + w^2 = 1`. -/
theorem orientation_unit_norm (recv_data : List Nat) (res : Int) (imu : Imu ℝ)
    (mag : MagneticField ℝ)
    (h : serialCallback (Trig.mk Real.pi Real.sin Real.cos) recv_data res =
      Outcome.published imu mag) :
    imu.orientation.x ^ 2 + imu.orientation.y ^ 2 + imu.orientation.z ^ 2 +
      imu.orientation.w ^ 2 = 1 := by
  obtain ⟨himu, _⟩ := serialCallback_published_inv _ recv_data res imu mag h
  subst himu
  exact setRPY_norm _ (fun x => Real.sin_sq_add_cos_sq x) _ _ _

set_option maxRecDepth 100000 in
/-- C13, at the frame `frameCount`. -/
theorem orientation_unit_norm_witness :
    serialCallback (Trig.mk Real.pi Real.sin Real.cos) frameCount 29 =
        Outcome.published
          (imuOf (Trig.mk Real.pi Real.sin Real.cos) (registerBlock frameCount))
          (magOf (registerBlock frameCount)) ∧
      (imuOf (Trig.mk Real.pi Real.sin Real.cos) (registerBlock frameCount)).orientation.x ^ 2 +
        (imuOf (Trig.mk Real.pi Real.sin Real.cos) (registerBlock frameCount)).orientation.y ^ 2 +
        (imuOf (Trig.mk Real.pi Real.sin Real.cos) (registerBlock frameCount)).orientation.z ^ 2 +
        (imuOf (Trig.mk Real.pi Real.sin Real.cos) (registerBlock frameCount)).orientation.w ^ 2
        = 1 :=
  have hp := serialCallback_eq_published (Trig.mk Real.pi Real.sin Real.cos) frameCount 29
    (by decide) (by decide)
  ⟨hp, orientation_unit_norm frameCount 29 _ _ hp⟩

set_option maxRecDepth 100000 in
/-- C14. For every byte sequence of length at most 255, `getCrc` returns the
standard CRC-16 register (reflected polynomial `0xA001`, seed `0xFFFF`, no final
XOR) with its bytes swapped: `crc_high` is the low 8 bits of the register and
`crc_low` its high 8 bits, so the byte sent first, `crc_code >> 8`, is the low
byte of the standard CRC and the byte sent second its high byte; this is what
`timerCallback` puts in `send_data[6]` and `send_data[7]`. -/
theorem getCrc_is_swapped_crc16 (bytes : List Nat) (hb : ∀ b ∈ bytes, b < 256)
    (hlen : bytes.length ≤ 255) :
    crc16 bytes < 65536 ∧
      (getCrcLoop bytes bytes.length).1 = crc16 bytes % 256 ∧
      (getCrcLoop bytes bytes.length).2 = crc16 bytes / 256 ∧
      getCrc bytes bytes.length = (crc16 bytes % 256) * 256 + crc16 bytes / 256 ∧
      getCrc bytes bytes.length >>> 8 = crc16 bytes % 256 ∧
      getCrc bytes bytes.length &&& 0xff = crc16 bytes / 256 ∧
      timerCallback.getD 6 0 = crc16 (timerCallback.take 6) % 256 ∧
      timerCallback.getD 7 0 = crc16 (timerCallback.take 6) / 256 := by
  have h := getCrcLoop_eq_crc16 bytes hb bytes.length (le_refl _)
  have hlt := getCrcLoop_lt bytes bytes.length
  have hg := getCrc_eq bytes bytes.length hlen
  rw [List.take_length] at h
  unfold regOf at h
  have e1 : (getCrcLoop bytes bytes.length).1 = crc16 bytes % 256 := by omega
  have e2 : (getCrcLoop bytes bytes.length).2 = crc16 bytes / 256 := by omega
  refine ⟨by omega, e1, e2, ?_, ?_, ?_, by decide, by decide⟩
  · rw [hg, e1, e2]
  · rw [hg, Nat.shiftRight_eq_div_pow, ← e1]
    omega
  · rw [hg, and_ff, ← e2]
    omega

set_option maxRecDepth 100000 in
/-- C14, at the six request bytes: the standard CRC is `0x8009`, `getCrc`
returns `0x0980` and the bytes sent are `0x09` then `0x80`. -/
theorem getCrc_is_swapped_crc16_witness :
    ((∀ b ∈ ([0x50, 0x03, 0x00, 0x34, 0x00, 0x0C] : List Nat), b < 256) ∧
      ([0x50, 0x03, 0x00, 0x34, 0x00, 0x0C] : List Nat).length ≤ 255) ∧
    crc16 [0x50, 0x03, 0x00, 0x34, 0x00, 0x0C] = 0x8009 ∧
    getCrc [0x50, 0x03, 0x00, 0x34, 0x00, 0x0C]
        ([0x50, 0x03, 0x00, 0x34, 0x00, 0x0C] : List Nat).length =
      (crc16 [0x50, 0x03, 0x00, 0x34, 0x00, 0x0C] % 256) * 256 +
        crc16 [0x50, 0x03, 0x00, 0x34, 0x00, 0x0C] / 256 :=
  ⟨⟨by decide, by decide⟩, by decide,
    (getCrc_is_swapped_crc16 [0x50, 0x03, 0x00, 0x34, 0x00, 0x0C] (by decide)
      (by decide)).2.2.2.1⟩

/-- C15. For every response of `n ≤ 257` bytes that `serialCallback` publishes,
every index `i < n` and every byte value different from `buf[i]`, the buffer
with `buf[i]` replaced by that value is not published, whether the byte is in
the header, the length, the payload or the checksum trailer. -/
theorem replaced_byte_rejected {α : Type} [Field α] (T : Trig α) (buf : List Nat) (n i v : Nat)
    (hb : ∀ b ∈ buf, b < 256) (hn : n ≤ buf.length) (hmax : n ≤ 257)
    (hacc : (serialCallback T buf n).isPublished = true) (hi : i < n)
    (hv : v < 256) (hne : v ≠ buf.getD i 0) :
    (serialCallback T (buf.set i v) n).isPublished = false := by
  obtain ⟨h3, h0⟩ := replaced_byte_outcome T buf n i v hb hn hmax hacc hi hv hne
  by_cases hlt : i < 3
  · rw [h0 hlt]
    rfl
  · rw [h3 (Nat.not_lt.1 hlt)]
    rfl

set_option maxRecDepth 100000 in
/-- C15, at the frame `frameCount` with the payload byte at index 10 replaced by `0xAB`. -/
theorem replaced_byte_rejected_witness :
    ((∀ b ∈ frameCount, b < 256) ∧ 29 ≤ frameCount.length ∧ 29 ≤ 257 ∧
      (serialCallback (Trig.mk Real.pi Real.sin Real.cos) frameCount (29 : Nat)).isPublished
        = true ∧ 10 < 29 ∧ 0xAB < 256 ∧ 0xAB ≠ frameCount.getD 10 0) ∧
    (serialCallback (Trig.mk Real.pi Real.sin Real.cos) (frameCount.set 10 0xAB)
      (29 : Nat)).isPublished = false :=
  have hacc : (serialCallback (Trig.mk Real.pi Real.sin Real.cos) frameCount
      (29 : Nat)).isPublished = true := by
    rw [serialCallback_isPublished_iff]
    decide
  ⟨⟨by decide, by decide, by decide, hacc, by decide, by decide, by decide⟩,
    replaced_byte_rejected (Trig.mk Real.pi Real.sin Real.cos) frameCount 29 10 0xAB
      (by decide) (by decide) (by decide) hacc (by decide) (by decide) (by decide)⟩

/-- C16. For every byte sequence `m` of length at most 253, with
`c = getCrc(m)`, the checksum of `m` followed by its own checksum bytes in wire
order, `c >> 8` then `c & 0xFF`, is zero. -/
theorem getCrc_append_own_checksum (m : List Nat) (hlen : m.length ≤ 253) :
    getCrc (m ++ [getCrc m m.length >>> 8, getCrc m m.length &&& 0xff])
      (m ++ [getCrc m m.length >>> 8, getCrc m m.length &&& 0xff]).length = 0 := by
  have hlt := getCrcLoop_lt m m.length
  have hg := getCrc_eq m m.length (by omega)
  have ea : getCrc m m.length >>> 8 = (getCrcLoop m m.length).1 := by
    rw [hg, Nat.shiftRight_eq_div_pow]
    omega
  have eb : getCrc m m.length &&& 0xff = (getCrcLoop m m.length).2 := by
    rw [hg, and_ff]
    omega
  rw [ea, eb]
  have hl : (m ++ [(getCrcLoop m m.length).1, (getCrcLoop m m.length).2]).length =
      m.length + 1 + 1 := by simp
  rw [hl, getCrc_eq _ _ (by omega)]
  have hpre : getCrcLoop (m ++ [(getCrcLoop m m.length).1, (getCrcLoop m m.length).2]) m.length
      = getCrcLoop m m.length :=
    getCrcLoop_congr _ (fun k hk => getD_append_left m _ hk)
  have h0 := getD_append_right m [(getCrcLoop m m.length).1, (getCrcLoop m m.length).2] 0
  have h1 := getD_append_right m [(getCrcLoop m m.length).1, (getCrcLoop m m.length).2] 1
  have hloop : getCrcLoop (m ++ [(getCrcLoop m m.length).1, (getCrcLoop m m.length).2])
      (m.length + 1 + 1) = (0, 0) := by
    simp only [getCrcLoop]
    rw [hpre, h1]
    rw [Nat.add_zero] at h0
    rw [h0]
    exact crcStep_own_bytes hlt.2
  rw [hloop]
  norm_num

set_option maxRecDepth 100000 in
/-- C16, at the six request bytes followed by `0x09 0x80`. -/
theorem getCrc_append_own_checksum_witness :
    ([0x50, 0x03, 0x00, 0x34, 0x00, 0x0C] : List Nat).length ≤ 253 ∧
    getCrc [0x50, 0x03, 0x00, 0x34, 0x00, 0x0C] 6 = 0x0980 ∧
    getCrc (([0x50, 0x03, 0x00, 0x34, 0x00, 0x0C] : List Nat) ++
        [getCrc [0x50, 0x03, 0x00, 0x34, 0x00, 0x0C]
            ([0x50, 0x03, 0x00, 0x34, 0x00, 0x0C] : List Nat).length >>> 8,
          getCrc [0x50, 0x03, 0x00, 0x34, 0x00, 0x0C]
            ([0x50, 0x03, 0x00, 0x34, 0x00, 0x0C] : List Nat).length &&& 0xff])
      (([0x50, 0x03, 0x00, 0x34, 0x00, 0x0C] : List Nat) ++
        [getCrc [0x50, 0x03, 0x00, 0x34, 0x00, 0x0C]
            ([0x50, 0x03, 0x00, 0x34, 0x00, 0x0C] : List Nat).length >>> 8,
          getCrc [0x50, 0x03, 0x00, 0x34, 0x00, 0x0C]
            ([0x50, 0x03, 0x00, 0x34, 0x00, 0x0C] : List Nat).length &&& 0xff]).length = 0 :=
  ⟨by decide, by decide,
    getCrc_append_own_checksum [0x50, 0x03, 0x00, 0x34, 0x00, 0x0C] (by decide)⟩

/-- C17. `getCrc` is total on every input of size 0 to 255: each table has
exactly 256 entries, every lookup index `(crc_high ^ byte) & 0xff` lies in
0..255, so no table access is out of bounds, the 8-bit counter takes the values
0 to `size_` without wrapping, and the loop stops after exactly `size_`
iterations with the pair that `getCrc` packs into its result. -/
theorem getCrc_total (datas_ : List Nat) (size_ : Nat) (hsize : size_ ≤ 255) :
    crc_high_array.length = 256 ∧ crc_low_array.length = 256 ∧
      (∀ (st : Nat × Nat) (d : Nat), (st.1 ^^^ d) &&& 0xff < 256) ∧
      (∀ (st : Nat × Nat) (d : Nat), crcStepChecked st d = some (crcStep st d)) ∧
      (∀ i, i < size_ → (i + 1) % 256 = i + 1) ∧
      getCrcFor datas_ size_ (size_ + 1) 0 (0xff, 0xff) =
        some (getCrcLoop datas_ size_, size_) ∧
      getCrc datas_ size_ =
        (getCrcLoop datas_ size_).1 <<< 8 ||| (getCrcLoop datas_ size_).2 := by
  refine ⟨crc_high_array_length, crc_low_array_length, ?_, crcStepChecked_eq, ?_, ?_,
    getCrc_eq_pack datas_ size_ hsize⟩
  · intro st d
    rw [and_ff]
    exact Nat.mod_lt _ (by decide)
  · intro i hi
    exact Nat.mod_eq_of_lt (by omega)
  · exact getCrcFor_from datas_ size_ hsize size_ 0 (by omega)

set_option maxRecDepth 100000 in
/-- C17, on the six request bytes. -/
theorem getCrc_total_witness :
    (6 ≤ 255) ∧
    getCrcFor [0x50, 0x03, 0x00, 0x34, 0x00, 0x0C] 6 (6 + 1) 0 (0xff, 0xff) =
      some (getCrcLoop [0x50, 0x03, 0x00, 0x34, 0x00, 0x0C] 6, 6) :=
  ⟨by decide, (getCrc_total [0x50, 0x03, 0x00, 0x34, 0x00, 0x0C] 6 (by decide)).2.2.2.2.2.1⟩

/-- C18. Whenever a reading is published, each decoded channel value
`c = v / 32768 * R`, for the raw register value `v` and the range `R` of the
channel (2000 for the three angular velocities, 1 for the three magnetic field
components, 180 degrees for roll, pitch and yaw before their conversion to
radians), lies in `[-R, R)`: `-R` is attained exactly at `v = -32768`, `R` is
never attained and the largest value, `32767 / 32768 * R`, is attained exactly
at `v = 32767`. -/
theorem decoded_channels_in_range {α : Type} [LinearOrderedField α] (T : Trig α)
    (recv_data : List Nat) (res : Int) (imu : Imu α) (mag : MagneticField α)
    (h : serialCallback T recv_data res = Outcome.published imu mag) :
    (∀ p ∈ ([(imu.angular_velocity.x, rawReg recv_data 9 10, 2000),
          (imu.angular_velocity.y, rawReg recv_data 11 12, 2000),
          (imu.angular_velocity.z, rawReg recv_data 13 14, 2000),
          (mag.magnetic_field.x, rawReg recv_data 15 16, 1),
          (mag.magnetic_field.y, rawReg recv_data 17 18, 1),
          (mag.magnetic_field.z, rawReg recv_data 19 20, 1),
          ((rawReg recv_data 21 22 : α) / 32768 * ang_range, rawReg recv_data 21 22, 180),
          ((rawReg recv_data 23 24 : α) / 32768 * ang_range, rawReg recv_data 23 24, 180),
          ((rawReg recv_data 25 26 : α) / 32768 * ang_range, rawReg recv_data 25 26, 180)] :
          List (α × Int × α)),
        p.1 = (p.2.1 : α) / 32768 * p.2.2 ∧ -32768 ≤ p.2.1 ∧ p.2.1 < 32768 ∧
          -p.2.2 ≤ p.1 ∧ p.1 < p.2.2 ∧ p.1 ≤ 32767 / 32768 * p.2.2 ∧
          (p.1 = -p.2.2 ↔ p.2.1 = -32768) ∧
          (p.1 = 32767 / 32768 * p.2.2 ↔ p.2.1 = 32767)) ∧
      (rpyOf T (registerBlock recv_data)).x =
        (rawReg recv_data 21 22 : α) / 32768 * ang_range * T.pi / 180 ∧
      (rpyOf T (registerBlock recv_data)).y =
        (rawReg recv_data 23 24 : α) / 32768 * ang_range * T.pi / 180 ∧
      (rpyOf T (registerBlock recv_data)).z =
        (rawReg recv_data 25 26 : α) / 32768 * ang_range * T.pi / 180 ∧
      imu.orientation = setRPY T (rpyOf T (registerBlock recv_data)).x
        (rpyOf T (registerBlock recv_data)).y (rpyOf T (registerBlock recv_data)).z := by
  obtain ⟨himu, hmag⟩ := serialCallback_published_inv T recv_data res imu mag h
  subst himu
  subst hmag
  have key : ∀ (i j : Nat) (R : α), 0 < R →
      ((rawReg recv_data i j : α) / 32768 * R = (rawReg recv_data i j : α) / 32768 * R ∧
        -32768 ≤ rawReg recv_data i j ∧ rawReg recv_data i j < 32768 ∧
        -R ≤ (rawReg recv_data i j : α) / 32768 * R ∧
        (rawReg recv_data i j : α) / 32768 * R < R ∧
        (rawReg recv_data i j : α) / 32768 * R ≤ 32767 / 32768 * R ∧
        ((rawReg recv_data i j : α) / 32768 * R = -R ↔ rawReg recv_data i j = -32768) ∧
        ((rawReg recv_data i j : α) / 32768 * R = 32767 / 32768 * R ↔
          rawReg recv_data i j = 32767)) := by
    intro i j R hR
    have hr := toInt16_range (recv_data.getD i 0 <<< 8 ||| recv_data.getD j 0)
    obtain ⟨a, b, c, d, e⟩ := scaled_range (rawReg recv_data i j) hr.1 hr.2 R hR
    exact ⟨rfl, hr.1, hr.2, a, b, c, d, e⟩
  refine ⟨?_, rfl, rfl, rfl, rfl⟩
  intro p hp
  simp only [List.mem_cons, List.mem_singleton, List.not_mem_nil, or_false] at hp
  rcases hp with hp | hp | hp | hp | hp | hp | hp | hp | hp <;> subst hp
  · exact key 9 10 2000 (by norm_num)
  · exact key 11 12 2000 (by norm_num)
  · exact key 13 14 2000 (by norm_num)
  · exact key 15 16 1 (by norm_num)
  · exact key 17 18 1 (by norm_num)
  · exact key 19 20 1 (by norm_num)
  · exact key 21 22 180 (by norm_num)
  · exact key 23 24 180 (by norm_num)
  · exact key 25 26 180 (by norm_num)

set_option maxRecDepth 100000 in
/-- C18, at the frame `frameMinGyro` over the reals: the gyro X register is
-32768 and the angular velocity X is -2000. -/
theorem decoded_channels_in_range_witness :
    serialCallback (Trig.mk Real.pi Real.sin Real.cos) frameMinGyro 29 =
        Outcome.published
          (imuOf (Trig.mk Real.pi Real.sin Real.cos) (registerBlock frameMinGyro))
          (magOf (registerBlock frameMinGyro)) ∧
      rawReg frameMinGyro 9 10 = -32768 ∧
      (imuOf (Trig.mk Real.pi Real.sin Real.cos)
        (registerBlock frameMinGyro)).angular_velocity.x = (-2000 : ℝ) :=
  have hp := serialCallback_eq_published (Trig.mk Real.pi Real.sin Real.cos) frameMinGyro 29
    (by decide) (by decide)
  have hv : rawReg frameMinGyro 9 10 = -32768 := by decide
  ⟨hp, hv,
    ((decoded_channels_in_range (Trig.mk Real.pi Real.sin Real.cos) frameMinGyro 29 _ _ hp).1
      (_, rawReg frameMinGyro 9 10, 2000) (List.mem_cons_self _ _)).2.2.2.2.2.2.1.2 hv⟩

set_option maxRecDepth 100000 in
/-- C19. The request of `timerCallback` is a constant, the same byte string on
every poll: `0x50 0x03 0x00 0x34 0x00 0x0C 0x09 0x80`, and `getCrc` over the
first six bytes is `0x0980`. -/
theorem timerCallback_constant :
    timerCallback = [0x50, 0x03, 0x00, 0x34, 0x00, 0x0C, 0x09, 0x80] ∧
      getCrc [0x50, 0x03, 0x00, 0x34, 0x00, 0x0C] 6 = 0x0980 := by
  decide

end WT901
